import Mathlib

/-!
Verification of the sw4rm orchestration engine (TypeScript) against its
natural-language specification.

The development shallowly embeds the source modules:
  * src/utils.ts      — mergeFields, mergeChunk, retry, parseArguments, CTX_VARS_NAME
  * src/core.ts       — Swarm.getChatCompletion, handleToolCalls, run,
                        streamGenerator, runStream
  * src/errors.ts     — the SwarmError classes (modelled by their name/message/code data)
  * src/types.ts      — Message, ToolCall, Agent, Result, ResponseData shapes

JavaScript runtime values flowing through the delta merger and through tool
results are modelled by the inductive `Value` below.  JS exceptions are
modelled by `Except JsErr`; asynchronous suspension is irrelevant to the
properties at issue and is erased.  The completion provider (an external
collaborator) is modelled by a finite script of responses; exhausting the
script is modelled as a provider failure.  Number values are kept at the
lexeme level (no floating point arithmetic is performed by any code under
verification).
-/

namespace Sw4rm

/-- A JavaScript error value as observed by the engine: its `name`, its
`message`, and the SwarmError `code` field (empty for plain JS errors,
which carry no code). The `cause` and `stack` fields are never read by the
engine and are not modelled. -/
structure JsErr where
  name : String
  message : String
  code : String
deriving DecidableEq, Repr

/-- JavaScript runtime values, as far as the engine inspects them:
strings, numbers (kept as their source lexeme — the engine never computes
with them), booleans, null, undefined, plain objects (insertion-ordered
own properties) and arrays. -/
inductive Value where
  | vStr (s : String)
  | vNum (lex : String)
  | vBool (b : Bool)
  | vNull
  | vUndef
  | vObj (fields : List (String × Value))
  | vArr (elems : List Value)
deriving Repr, Inhabited

-- Nesting depth of a value; used as recursion fuel for the field merger
-- (whose recursion follows the source value's nesting).
mutual

def vdepth : Value → Nat
  | .vObj fs => vdepthFields fs + 1
  | .vArr xs => vdepthElems xs + 1
  | _ => 1

def vdepthFields : List (String × Value) → Nat
  | [] => 0
  | (_, v) :: rest => max (vdepth v) (vdepthFields rest)

def vdepthElems : List Value → Nat
  | [] => 0
  | v :: rest => max (vdepth v) (vdepthElems rest)

end

/-- A nonzero JSON number lexeme (mantissa holds a nonzero digit). -/
def numLexTruthy (lex : String) : Bool :=
  (lex.toList.takeWhile (fun c => c ≠ 'e' ∧ c ≠ 'E')).any (fun c => '1' ≤ c ∧ c ≤ '9')

/-- JS truthiness of a value. -/
def truthy : Value → Bool
  | .vStr s => s ≠ ""
  | .vNum lex => numLexTruthy lex
  | .vBool b => b
  | .vNull => false
  | .vUndef => false
  | .vObj _ => true
  | .vArr _ => true

def truthyOpt : Option Value → Bool
  | some v => truthy v
  | none => false

-- JS ToString coercion, as used by string concatenation and property keys.
-- Array join maps null/undefined elements to the empty string.
mutual

def jsToString : Value → String
  | .vStr s => s
  | .vNum lex => lex
  | .vBool b => cond b "true" "false"
  | .vNull => "null"
  | .vUndef => "undefined"
  | .vObj _ => "[object Object]"
  | .vArr xs => String.intercalate "," (jsJoinParts xs)

def jsJoinParts : List Value → List String
  | [] => []
  | v :: rest =>
    (match v with
     | .vNull => ""
     | .vUndef => ""
     | w => jsToString w) :: jsJoinParts rest

end

/-- `x || ""` followed by ToString, for an optionally-present property:
the value itself when truthy, the empty string otherwise. -/
def orEmptyStr : Option Value → String
  | some v => if truthy v then jsToString v else ""
  | none => ""

/-- `Object.entries`: own enumerable properties of objects, index/char
entries for arrays and strings, empty for the remaining primitives
(entries of `null`/`undefined` would throw; those calls are unreachable
in the engine because `mergeFields` guards object-ness before recursing). -/
def entriesOf : Value → List (String × Value)
  | .vObj fs => fs
  | .vArr xs => (List.range xs.length).zip xs |>.map (fun p => (toString p.1, p.2))
  | .vStr s => (List.range s.length).zip s.toList |>.map (fun p => (toString p.1, .vStr (String.singleton p.2)))
  | _ => []

/-- Property read. Primitive receivers expose no properties relevant to the
engine (string index properties are not modelled; no verified path reads
them). Array reads use canonical index keys, as JS does. -/
def getProp : Value → String → Option Value
  | .vObj fs, k => fs.lookup k
  | .vArr xs, k =>
    match k.toNat? with
    | some n => if toString n = k then xs.get? n else none
    | none => none
  | _, _ => none

/-- Whether property assignment on this receiver succeeds (objects and
arrays) or throws a strict-mode TypeError (primitives). -/
def canSetProp : Value → Bool
  | .vObj _ => true
  | .vArr _ => true
  | _ => false

def setPropObj (fs : List (String × Value)) (k : String) (x : Value) : List (String × Value) :=
  if fs.any (fun p => p.1 = k) then fs.map (fun p => if p.1 = k then (k, x) else p)
  else fs ++ [(k, x)]

/-- Property write (total; callers consult `canSetProp` where the source
could throw). Array writes at canonical indices update or extend, padding
holes with undefined; array expando properties are not modelled (no
verified path creates one). -/
def setProp : Value → String → Value → Value
  | .vObj fs, k, x => .vObj (setPropObj fs k x)
  | .vArr xs, k, x =>
    (match k.toNat? with
     | some n =>
       if toString n = k then
         if n < xs.length then .vArr (xs.set n x)
         else .vArr (xs ++ List.replicate (n - xs.length) .vUndef ++ [x])
       else .vArr xs
     | none => .vArr xs)
  | v, _, _ => v

/-- `delete obj[k]`. Deleting an array index leaves a hole (undefined);
deleting on primitives is a no-op. -/
def deleteProp : Value → String → Value
  | .vObj fs, k => .vObj (fs.filter (fun p => p.1 ≠ k))
  | .vArr xs, k =>
    (match k.toNat? with
     | some n =>
       if toString n = k ∧ n < xs.length then .vArr (xs.set n .vUndef) else .vArr xs
     | none => .vArr xs)
  | v, _ => v

/-! ### JSON.parse / JSON.stringify

`parseArguments` wraps the runtime's `JSON.parse`; the tool dispatcher
coerces non-string tool results through `JSON.stringify`.  Both runtime
builtins are modelled here at the JSON-grammar level (numbers kept as
lexemes). -/

def isJsonWs (c : Char) : Bool :=
  c = ' ' ∨ c = '\t' ∨ c = '\n' ∨ c = '\r'

def skipWs : List Char → List Char
  | [] => []
  | c :: cs => if isJsonWs c then skipWs cs else c :: cs

def hexVal (c : Char) : Option Nat :=
  if '0' ≤ c ∧ c ≤ '9' then some (c.toNat - '0'.toNat)
  else if 'a' ≤ c ∧ c ≤ 'f' then some (c.toNat - 'a'.toNat + 10)
  else if 'A' ≤ c ∧ c ≤ 'F' then some (c.toNat - 'A'.toNat + 10)
  else none

/-- Body of a JSON string literal, after the opening quote. -/
def parseJStr : Nat → List Char → Option (String × List Char)
  | 0, _ => none
  | _, [] => none
  | fuel + 1, c :: cs =>
    if c = '"' then some ("", cs)
    else if c = '\\' then
      match cs with
      | [] => none
      | e :: cs2 =>
        let cont (ch : Char) (rest : List Char) : Option (String × List Char) :=
          match parseJStr fuel rest with
          | some (s, r) => some (String.singleton ch ++ s, r)
          | none => none
        if e = '"' then cont '"' cs2
        else if e = '\\' then cont '\\' cs2
        else if e = '/' then cont '/' cs2
        else if e = 'b' then cont (Char.ofNat 8) cs2
        else if e = 'f' then cont (Char.ofNat 12) cs2
        else if e = 'n' then cont '\n' cs2
        else if e = 'r' then cont '\r' cs2
        else if e = 't' then cont '\t' cs2
        else if e = 'u' then
          match cs2 with
          | h1 :: h2 :: h3 :: h4 :: cs3 =>
            match hexVal h1, hexVal h2, hexVal h3, hexVal h4 with
            | some a, some b, some c3, some d =>
              cont (Char.ofNat (((a * 16 + b) * 16 + c3) * 16 + d)) cs3
            | _, _, _, _ => none
          | _ => none
        else none
    else if c.toNat < 0x20 then none
    else
      match parseJStr fuel cs with
      | some (s, r) => some (String.singleton c ++ s, r)
      | none => none

def isDigit (c : Char) : Bool := '0' ≤ c ∧ c ≤ '9'

/-- A JSON number lexeme: `-? int frac? exp?` with the strict leading-zero
rule of the JSON grammar. Returns the lexeme and the remaining input. -/
def parseJNum (cs : List Char) : Option (String × List Char) :=
  let (sign, cs1) :=
    match cs with
    | '-' :: rest => ("-", rest)
    | _ => ("", cs)
  match cs1 with
  | [] => none
  | d :: rest =>
    if ¬ isDigit d then none
    else
      let (intPart, cs2) :=
        if d = '0' then ("0", rest)
        else
          let more := rest.takeWhile isDigit
          (String.singleton d ++ String.mk more, rest.drop more.length)
      let (fracPart, cs3) :=
        match cs2 with
        | '.' :: f :: r =>
          if isDigit f then
            let more := r.takeWhile isDigit
            ("." ++ String.singleton f ++ String.mk more, r.drop more.length)
          else ("", cs2)
        | _ => ("", cs2)
      if fracPart = "" ∧ cs2.head? = some '.' then none
      else
        let (expPart, cs4) :=
          match cs3 with
          | e :: r =>
            if e = 'e' ∨ e = 'E' then
              let (esign, r2) :=
                match r with
                | '+' :: rr => ("+", rr)
                | '-' :: rr => ("-", rr)
                | _ => ("", r)
              match r2 with
              | d2 :: rr2 =>
                if isDigit d2 then
                  let more := rr2.takeWhile isDigit
                  (String.singleton e ++ esign ++ String.singleton d2 ++ String.mk more,
                   rr2.drop more.length)
                else ("", cs3)
              | [] => ("", cs3)
            else ("", cs3)
          | [] => ("", cs3)
        if expPart = "" ∧ (cs3.head? = some 'e' ∨ cs3.head? = some 'E') then none
        else some (sign ++ intPart ++ fracPart ++ expPart, cs4)

mutual

def parseJVal : Nat → List Char → Option (Value × List Char)
  | 0, _ => none
  | fuel + 1, cs =>
    match skipWs cs with
    | [] => none
    | c :: rest =>
      if c = '{' then
        match skipWs rest with
        | '}' :: r => some (.vObj [], r)
        | r => parseJMembers fuel r []
      else if c = '[' then
        match skipWs rest with
        | ']' :: r => some (.vArr [], r)
        | r => parseJElems fuel r []
      else if c = '"' then
        match parseJStr (rest.length + 1) rest with
        | some (s, r) => some (.vStr s, r)
        | none => none
      else if c = 't' then
        match rest with
        | 'r' :: 'u' :: 'e' :: r => some (.vBool true, r)
        | _ => none
      else if c = 'f' then
        match rest with
        | 'a' :: 'l' :: 's' :: 'e' :: r => some (.vBool false, r)
        | _ => none
      else if c = 'n' then
        match rest with
        | 'u' :: 'l' :: 'l' :: r => some (.vNull, r)
        | _ => none
      else
        match parseJNum (c :: rest) with
        | some (lex, r) => some (.vNum lex, r)
        | none => none

/-- Members of an object, positioned at a key (duplicate keys keep the last
value in the first key's position, as `JSON.parse` does). -/
def parseJMembers : Nat → List Char → List (String × Value) → Option (Value × List Char)
  | 0, _, _ => none
  | fuel + 1, cs, acc =>
    match skipWs cs with
    | '"' :: rest =>
      match parseJStr (rest.length + 1) rest with
      | some (k, r1) =>
        match skipWs r1 with
        | ':' :: r2 =>
          match parseJVal fuel r2 with
          | some (v, r3) =>
            let acc2 := setPropObj acc k v
            match skipWs r3 with
            | ',' :: r4 => parseJMembers fuel r4 acc2
            | '}' :: r4 => some (.vObj acc2, r4)
            | _ => none
          | none => none
        | _ => none
      | none => none
    | _ => none

def parseJElems : Nat → List Char → List Value → Option (Value × List Char)
  | 0, _, _ => none
  | fuel + 1, cs, acc =>
    match parseJVal fuel cs with
    | some (v, r1) =>
      match skipWs r1 with
      | ',' :: r2 => parseJElems fuel r2 (acc ++ [v])
      | ']' :: r2 => some (.vArr (acc ++ [v]), r2)
      | _ => none
    | none => none

end

/-- The runtime's `JSON.parse`: `none` models a thrown `SyntaxError`. -/
def jsonParse (s : String) : Option Value :=
  match parseJVal (s.length + 16) s.toList with
  | some (v, rest) => if skipWs rest = [] then some v else none
  | none => none

def quoteJson (s : String) : String :=
  "\"" ++ String.join (s.toList.map (fun c =>
    if c = '"' then "\\\""
    else if c = '\\' then "\\\\"
    else if c = '\n' then "\\n"
    else if c = '\r' then "\\r"
    else if c = '\t' then "\\t"
    else if c = Char.ofNat 8 then "\\b"
    else if c = Char.ofNat 12 then "\\f"
    else String.singleton c)) ++ "\""

-- The runtime's `JSON.stringify`; `none` models the undefined result on
-- an undefined input.  Undefined-valued object fields are skipped and
-- undefined array elements print as null, as the runtime does.
mutual

def stringifyV : Value → Option String
  | .vStr s => some (quoteJson s)
  | .vNum lex => some lex
  | .vBool b => some (cond b "true" "false")
  | .vNull => some "null"
  | .vUndef => none
  | .vObj fs => some ("\x7b" ++ String.intercalate "," (stringifyFields fs) ++ "\x7d")
  | .vArr xs => some ("[" ++ String.intercalate "," (stringifyElems xs) ++ "]")

def stringifyFields : List (String × Value) → List String
  | [] => []
  | (k, v) :: rest =>
    match stringifyV v with
    | some s => (quoteJson k ++ ":" ++ s) :: stringifyFields rest
    | none => stringifyFields rest

def stringifyElems : List Value → List String
  | [] => []
  | v :: rest =>
    (match stringifyV v with
     | some s => s
     | none => "null") :: stringifyElems rest

end

/-! ### src/utils.ts — parseArguments, mergeFields, mergeChunk, retry -/

/-- Special variable name used to pass context variables to tool functions
(`CTX_VARS_NAME` in src/utils.ts). -/
def CTX_VARS_NAME : String := "context_variables"

/-- `parseArguments(argsStr)` (src/utils.ts): `JSON.parse` wrapped so that a
parse failure throws a `ValidationError` whose message preserves the
offending text (the wrapped cause is never read downstream and is not
modelled). -/
def parseArguments (argsStr : String) : Except JsErr Value :=
  match jsonParse argsStr with
  | some v => .ok v
  | none =>
    .error ⟨"ValidationError", "Failed to parse function arguments: " ++ argsStr,
            "VALIDATION_ERROR"⟩

/-- The strict-mode TypeError thrown by assigning a property on a primitive. -/
def typeErrorSet (k : String) : JsErr :=
  ⟨"TypeError", "Cannot create property " ++ k ++ " on a primitive value", ""⟩

-- `mergeFields(target, source)` (src/utils.ts): for each entry of source —
-- a string value is concatenated onto `(target[key] || "")`; a non-null
-- object value is merged recursively, a falsy `target[key]` being replaced
-- by a fresh empty object first; other values are left untouched.  The
-- in-place mutation of the source is rendered functionally (the updated
-- object is stored back at its key; the assoc-list model has no aliasing).
-- The fuel argument is the nesting depth of the source, which bounds the
-- recursion; the fuel-exhausted branch is unreachable.
def mergeFieldsF : Nat → Value → Value → Except JsErr Value
  | 0, _, _ => .error ⟨"InternalError", "merge recursion fuel exhausted", ""⟩
  | fuel + 1, target, source =>
    (entriesOf source).foldlM
      (fun tgt kv =>
        match kv.2 with
        | .vStr s =>
          if canSetProp tgt then
            .ok (setProp tgt kv.1 (.vStr (orEmptyStr (getProp tgt kv.1) ++ s)))
          else .error (typeErrorSet kv.1)
        | .vObj _ | .vArr _ =>
          (match getProp tgt kv.1 with
           | some t =>
             if truthy t then
               (mergeFieldsF fuel t kv.2).map (fun merged => setProp tgt kv.1 merged)
             else
               if canSetProp tgt then
                 (mergeFieldsF fuel (.vObj []) kv.2).map (fun merged => setProp tgt kv.1 merged)
               else .error (typeErrorSet kv.1)
           | none =>
             if canSetProp tgt then
               (mergeFieldsF fuel (.vObj []) kv.2).map (fun merged => setProp tgt kv.1 merged)
             else .error (typeErrorSet kv.1))
        | _ => .ok tgt)
      target

def mergeFields (target source : Value) : Except JsErr Value :=
  mergeFieldsF (vdepth source) target source

/-- JS property-key coercion of the fragment's `index` field. -/
def propKey : Option Value → String
  | some v => jsToString v
  | none => "undefined"

/-- `mergeChunk(finalResponse, delta)` (src/utils.ts).  Drops `role` from
the delta, merges ALL remaining delta fields — including the `tool_calls`
array — via `mergeFields`, and then additionally processes the first
tool-call fragment: its `index` keys an accumulator object; a missing
record is created with the fragment's id and empty name/arguments; an
existing record has its id overwritten only when the fragment supplies a
truthy one; finally the fragment minus `index`/`id` is merged into the
record with `mergeFields` a second time. -/
def mergeChunk (finalResponse delta : Value) : Except JsErr Value := do
  let delta := deleteProp delta "role"
  let fr ← mergeFields finalResponse delta
  match getProp delta "tool_calls" with
  | some (.vArr (tc0 :: _)) => do
    let index := getProp tc0 "index"
    let tc0 := deleteProp tc0 "index"
    let key := propKey index
    let fr := if truthyOpt (getProp fr "tool_calls") then fr else setProp fr "tool_calls" (.vObj [])
    let tcs := match getProp fr "tool_calls" with
      | some t => t
      | none => .vObj []
    let tcs :=
      if ¬ truthyOpt (getProp tcs key) then
        let idv := match getProp tc0 "id" with
          | some v => if truthy v then v else .vStr ""
          | none => .vStr ""
        setProp tcs key (.vObj [("function", .vObj [("arguments", .vStr ""), ("name", .vStr "")]),
                                ("id", idv), ("type", .vStr "")])
      else
        -- Directly assign id instead of merging
        match getProp tc0 "id" with
        | some idv =>
          if truthy idv then
            setProp tcs key (setProp (match getProp tcs key with
              | some r => r
              | none => .vUndef) "id" idv)
          else tcs
        | none => tcs
    -- Remove id from the fragment to prevent merging it
    let rest := deleteProp tc0 "id"
    let record := match getProp tcs key with
      | some r => r
      | none => .vUndef
    let merged ← mergeFields record rest
    pure (setProp fr "tool_calls" (setProp tcs key merged))
  | _ => pure fr

/-- Retry configuration (`SwarmConfig.retryConfig` in src/types.ts).
`maxRetries` is an integer so that non-positive attempt counts are
representable. -/
structure RetryConfig where
  maxRetries : Int
  initialDelay : Nat
  maxDelay : Nat
deriving DecidableEq, Repr

/-- Observable outcome of `retry` (src/utils.ts): the propagated result,
the number of times the operation was invoked, the sleeps performed
between attempts, and whether the synthetic fallback error
("Operation failed with unknown error") was the one thrown. -/
structure RetryOutcome (α : Type) where
  result : Except JsErr α
  attemptsMade : Nat
  sleeps : List Nat
  usedFallback : Bool
deriving Repr

/-- The `for (let attempt = 1; attempt <= maxRetries; ...)` loop of `retry`.
`remaining` counts loop iterations still allowed, `attempt` is the current
1-based attempt number, `delay` the current backoff delay, `lastError` the
last caught failure, `sleepAcc` the performed sleeps in reverse. -/
def retryGo {α : Type} (op : Nat → Except JsErr α) (total : Nat) (maxDelay : Nat) :
    Nat → Nat → Nat → Option JsErr → List Nat → RetryOutcome α
  | 0, attempt, _, lastError, sleepAcc =>
    (match lastError with
     | some e => ⟨.error e, attempt - 1, sleepAcc.reverse, false⟩
     | none =>
       ⟨.error ⟨"Error", "Operation failed with unknown error", ""⟩,
        attempt - 1, sleepAcc.reverse, true⟩)
  | remaining + 1, attempt, delay, _, sleepAcc =>
    (match op attempt with
     | .ok v => ⟨.ok v, attempt, sleepAcc.reverse, false⟩
     | .error e =>
       if attempt < total then
         retryGo op total maxDelay remaining (attempt + 1) (min (delay * 2) maxDelay)
           (some e) (delay :: sleepAcc)
       else
         retryGo op total maxDelay remaining (attempt + 1) delay (some e) sleepAcc)

/-- `retry(operation, config, logger)` (src/utils.ts).  The operation is
modelled as a function of the 1-based attempt number; logging has no
observable effect on the outcome and is erased. -/
def retry {α : Type} (op : Nat → Except JsErr α) (config : RetryConfig) : RetryOutcome α :=
  retryGo op config.maxRetries.toNat config.maxDelay config.maxRetries.toNat 1
    config.initialDelay none []

/-! ### src/types.ts — message, tool call, agent and result shapes -/

/-- `MessageRole` (src/types.ts). -/
inductive Role where
  | system
  | user
  | assistant
  | tool
deriving DecidableEq, Repr

/-- The `function` component of a tool call (src/types.ts `ToolCallSchema`). -/
structure FunctionCall where
  name : String
  arguments : String
deriving DecidableEq, Repr

/-- `ToolCall` (src/types.ts): id, type marker and function payload. -/
structure ToolCall where
  id : String
  type : String
  function : FunctionCall
deriving DecidableEq, Repr

/-- `Message` (src/types.ts `MessageSchema`). -/
structure Message where
  role : Role
  content : Option String
  sender : Option String := none
  tool_call_id : Option String := none
  tool_calls : Option (List ToolCall) := none
deriving DecidableEq, Repr

/-- An agent's registered tool.  The body is a pure function from the
parsed argument value to a result value or a thrown error.  `usesCtx`
models the source-text test `func.toString().includes(CTX_VARS_NAME)`
that decides whether the current context mapping is injected into the
arguments. -/
structure ToolFn where
  name : String
  usesCtx : Bool
  body : Value → Except JsErr Value

/-- `Agent` (src/types.ts `AgentSchema`).  Instructions are static text or
a zero-argument producer. -/
inductive Instructions where
  | text (s : String)
  | producer (f : Unit → String)

structure Agent where
  name : String
  model : String
  instructions : Instructions
  functions : List ToolFn
  toolChoice : Option String := none
  parallelToolCalls : Bool := false

/-- Context-variable mapping: a plain JS object of caller-supplied values. -/
abbrev Ctx := List (String × Value)

/-- `Object.assign(target, source)`: source entries written onto target in
order. -/
def objectAssign (target source : Ctx) : Ctx :=
  source.foldl (fun t p => setPropObj t p.1 p.2) target

/-- `Result<T>` (src/types.ts). -/
structure ResultR (α : Type) where
  success : Bool
  data : Option α := none
  error : Option JsErr := none

/-- `ResponseData` (src/types.ts). -/
structure ResponseData where
  messages : List Message
  agent : Option Agent
  contextVariables : Ctx

/-! ### src/core.ts — Swarm.handleToolCalls -/

/-- One iteration of the `for (const toolCall of toolCalls)` loop of
`Swarm.handleToolCalls` (src/core.ts): look the tool up by name; when
missing, produce a recoverable tool-role error message and no invocation;
when present, parse the arguments, optionally inject the context mapping,
invoke the body and wrap the (stringified) result in a tool-role message
keyed to the call id; any exception in that block is rethrown as a
`ToolExecutionError`.  The result pairs the appended message with the
invoked tool's name (`none` when the tool was not found). -/
def toolExecErr (name : String) (e : JsErr) : JsErr :=
  ⟨"ToolExecutionError", "Failed to execute tool " ++ name ++ ": " ++ e.message,
   "TOOL_EXECUTION_ERROR"⟩

def callResult (agent : Agent) (contextVariables : Ctx) (toolCall : ToolCall) :
    (Option String) × Except JsErr Message :=
  let name := toolCall.function.name
  match agent.functions.find? (fun f => f.name = name) with
  | none =>
    (none, .ok { role := .tool, content := some ("Error: Tool " ++ name ++ " not found."),
                 tool_call_id := some toolCall.id })
  | some func =>
    match (do
      let args ← parseArguments toolCall.function.arguments
      if func.usesCtx then
        if canSetProp args then pure (setProp args CTX_VARS_NAME (.vObj contextVariables))
        else .error (typeErrorSet CTX_VARS_NAME)
      else pure args : Except JsErr Value) with
    | .error e => (none, .error (toolExecErr name e))
    | .ok args =>
      match func.body args with
      | .error e => (some name, .error (toolExecErr name e))
      | .ok result =>
        let content : Option String :=
          match result with
          | .vStr s => some s
          | v => stringifyV v
        (some name, .ok { role := .tool, content := content, tool_call_id := some toolCall.id })

/-- Outcome of `handleToolCalls`, together with the list of tool bodies
that were actually invoked (in order) — the observable "dispatch trace". -/
structure DispatchOutcome where
  out : Except JsErr (ResultR ResponseData)
  invoked : List String

def handleToolCallsGo (agent : Agent) (contextVariables : Ctx) :
    List ToolCall → ResponseData → List String → DispatchOutcome
  | [], resp, inv => ⟨.ok ⟨true, some resp, none⟩, inv.reverse⟩
  | tc :: rest, resp, inv =>
    match callResult agent contextVariables tc with
    | (invokedName, .error e) =>
      ⟨.error e,
       (match invokedName with
        | some n => n :: inv
        | none => inv).reverse⟩
    | (invokedName, .ok msg) =>
      handleToolCallsGo agent contextVariables rest
        { resp with messages := resp.messages ++ [msg] }
        (match invokedName with
         | some n => n :: inv
         | none => inv)

/-- `Swarm.handleToolCalls(toolCalls, agent, contextVariables)`
(src/core.ts): a fresh accumulator with empty messages, no agent and a
shallow copy of the context mapping, filled by the per-call loop.  Note
that the loop never assigns `response.agent` and never writes to
`response.contextVariables`: tool return values are only stringified into
tool-role messages. -/
def handleToolCalls (toolCalls : List ToolCall) (agent : Agent) (contextVariables : Ctx) :
    DispatchOutcome :=
  handleToolCallsGo agent contextVariables toolCalls
    { messages := [], agent := none, contextVariables := contextVariables } []

/-! ### src/core.ts — Swarm.getChatCompletion and Swarm.run -/

def instructionsText : Instructions → String
  | .text s => s
  | .producer f => f ()

/-- The `createParams` object sent to the completion provider
(src/core.ts `getChatCompletion`): model (override or agent default), a
system message built from the active agent's instructions followed by the
full history, and — only when the agent has registered tools — a tool
manifest of bare function names (parameter schemas are left empty by the
source), the tool-choice policy and the parallel-tool-calls flag. -/
structure CompletionRequest where
  model : String
  messages : List Message
  tools : Option (List String)
  tool_choice : Option String
  parallel_tool_calls : Option Bool
  stream : Bool
deriving DecidableEq, Repr

def mkRequest (agent : Agent) (history : List Message) (modelOverride : Option String)
    (stream : Bool) : CompletionRequest :=
  let instructions := instructionsText agent.instructions
  { model := modelOverride.getD agent.model
    messages := { role := .system, content := some instructions } :: history
    tools := if agent.functions.length > 0 then some (agent.functions.map (fun f => f.name)) else none
    tool_choice := if agent.functions.length > 0 then agent.toolChoice else none
    parallel_tool_calls := if agent.functions.length > 0 then some agent.parallelToolCalls else none
    stream := stream }

/-- Options of `Swarm.run` / `Swarm.runStream` (the latter ignores
`stream`). Defaults as in the source: no override, non-streaming,
`maxTurns = Infinity` (`none`), tools executed. -/
structure RunOptions where
  modelOverride : Option String := none
  stream : Bool := false
  maxTurns : Option Nat := none
  executeTools : Bool := true

/-- `history.length - initLen < maxTurns`, with `none` as Infinity. -/
def underMax (n : Nat) : Option Nat → Bool
  | none => true
  | some m => n < m

/-- The completion provider is modelled by a finite script of
`createChatCompletion` results (that client never throws: failures come
back as failed `Result` values, which is also why the `retry` wrapper
around it resolves on the first attempt).  Running past the script's end
is modelled as a provider failure. -/
def apiScriptErr : JsErr :=
  ⟨"APIError", "OpenAI API call failed", "API_ERROR"⟩

/-- Observable outcome of a (non-streaming) run: the returned result, the
completion requests issued, and the names of the tool bodies invoked. -/
structure RunOutcome where
  result : ResultR ResponseData
  requests : List CompletionRequest
  invoked : List String

def mkSuccess (msgs : List Message) (agent : Agent) (ctx : Ctx) : ResultR ResponseData :=
  ⟨true, some ⟨msgs, some agent, ctx⟩, none⟩

/-- The SwarmError object built by the `catch` blocks of `run`,
`streamGenerator` and `runStream` (src/core.ts): name, message and stack
are copied from the thrown error, and `code` is hard-coded to
`"UNKNOWN_ERROR"` — the thrown error's own `code` field is not copied. -/
def catchWrap (e : JsErr) : JsErr :=
  ⟨e.name, e.message, "UNKNOWN_ERROR"⟩

/-- The `while (history.length - initLen < maxTurns && activeAgent)` loop
of `Swarm.run` (src/core.ts).  `activeAgent` starts as the given agent and
is only ever replaced by a non-null dispatch result, so the `&& activeAgent`
conjunct is always true and is represented by the non-optional `activeAgent`
argument.  The `catch` of `run` is applied where `handleToolCalls` throws. -/
def runLoopNS (modelOverride : Option String) (maxTurns : Option Nat) (executeTools : Bool)
    (initLen : Nat) :
    List (Except JsErr Message) → Agent → List Message → Ctx →
    List CompletionRequest → List String → RunOutcome
  | [], activeAgent, history, context, reqs, inv =>
    if underMax (history.length - initLen) maxTurns then
      ⟨⟨false, none, some apiScriptErr⟩,
       reqs ++ [mkRequest activeAgent history modelOverride false], inv⟩
    else
      ⟨mkSuccess (List.drop initLen history) activeAgent context, reqs, inv⟩
  | completion :: restScript, activeAgent, history, context, reqs, inv =>
    if underMax (history.length - initLen) maxTurns then
      let reqs := reqs ++ [mkRequest activeAgent history modelOverride false]
      match completion with
      | .error e => ⟨⟨false, none, some e⟩, reqs, inv⟩
      | .ok m0 =>
        let message := { m0 with sender := some activeAgent.name }
        let history := history ++ [message]
        match message.tool_calls, executeTools with
        | some tcs, true =>
          let d := handleToolCalls tcs activeAgent context
          (match d.out with
           | .error e => ⟨⟨false, none, some (catchWrap e)⟩, reqs, inv ++ d.invoked⟩
           | .ok tr =>
             if tr.success = false ∨ tr.data.isNone then
               ⟨⟨tr.success, tr.data, tr.error⟩, reqs, inv ++ d.invoked⟩
             else
               match tr.data with
               | some rd =>
                 runLoopNS modelOverride maxTurns executeTools initLen restScript
                   (match rd.agent with
                    | some a => a
                    | none => activeAgent)
                   (history ++ rd.messages)
                   (objectAssign context rd.contextVariables)
                   reqs (inv ++ d.invoked)
               | none => ⟨⟨tr.success, tr.data, tr.error⟩, reqs, inv ++ d.invoked⟩)
        | _, _ =>
          -- break: assistant message without tool calls, or tools disabled
          ⟨mkSuccess (List.drop initLen history) activeAgent context, reqs, inv⟩
    else
      ⟨mkSuccess (List.drop initLen history) activeAgent context, reqs, inv⟩

/-- The non-streaming path of `Swarm.run(agent, messages, contextVariables,
options)` (src/core.ts): shallow-copies of the caller's history and context
mapping are taken at entry (`[...messages]`, `{...contextVariables}`) and
the turn loop runs on them. -/
def runNS (agent : Agent) (messages : List Message) (contextVariables : Ctx)
    (opts : RunOptions) (script : List (Except JsErr Message)) : RunOutcome :=
  runLoopNS opts.modelOverride opts.maxTurns opts.executeTools messages.length
    script agent messages contextVariables [] []

/-! ### src/core.ts — Swarm.streamGenerator and Swarm.runStream -/

/-- Events yielded by `streamGenerator`: the `{delim: "start"}` and
`{delim: "end"}` markers and the raw delta chunks. -/
inductive StreamEvent where
  | delimStart
  | chunk (delta : Value)
  | delimEnd
deriving Repr

/-- The in-progress assistant message created at the top of each
`streamGenerator` turn (src/core.ts): empty content, the ORIGINAL agent's
name as sender, assistant role, null tool calls. -/
def initStreamMessage (origName : String) : Value :=
  .vObj [("content", .vStr ""), ("sender", .vStr origName), ("role", .vStr "assistant"),
         ("tool_calls", .vNull)]

/-- The `for await (const chunk of completion.data)` body of
`streamGenerator`: stamp the active agent's name onto assistant-role
deltas, yield the delta, then strip role and sender and merge it into the
in-progress message.  A merge throw ends the turn with that error (the
events yielded so far stand). -/
def processDeltas (activeName : String) : Value → List Value → (List StreamEvent) × Except JsErr Value
  | message, [] => ([], .ok message)
  | message, d :: rest =>
    let d1 :=
      match getProp d "role" with
      | some (.vStr r) => if r = "assistant" then setProp d "sender" (.vStr activeName) else d
      | _ => d
    let dm := deleteProp (deleteProp d1 "role") "sender"
    match mergeChunk message dm with
    | .ok m2 =>
      let (evs, res) := processDeltas activeName m2 rest
      (.chunk d1 :: evs, res)
    | .error e => ([.chunk d1], .error e)

def objValues (v : Value) : List Value := (entriesOf v).map (fun p => p.2)

def strField (v : Value) (k : String) : String :=
  match getProp v k with
  | some (.vStr s) => s
  | _ => ""

def optStrField (v : Value) (k : String) : Option String :=
  match getProp v k with
  | some (.vStr s) => some s
  | _ => none

/-- Conversion of an accumulated tool-call record to the `ToolCall` shape
consumed by `handleToolCalls`.  Records are built by `mergeChunk` with
string-valued id/type/name/arguments, so the string projections are exact
on every reachable record. -/
def valueToToolCall (v : Value) : ToolCall :=
  { id := strField v "id", type := strField v "type",
    function :=
      { name :=
          strField (match getProp v "function" with
            | some f => f
            | none => .vUndef) "name"
        arguments :=
          strField (match getProp v "function" with
            | some f => f
            | none => .vUndef) "arguments" } }

def roleOf (s : String) : Role :=
  if s = "system" then .system
  else if s = "user" then .user
  else if s = "tool" then .tool
  else .assistant

/-- The merged message object viewed as a `Message` (its role is the
`"assistant"` written at initialization — deltas have role stripped before
merging). -/
def valueToMessage (v : Value) (toolCalls : Option (List ToolCall)) : Message :=
  { role := roleOf (strField v "role"), content := optStrField v "content",
    sender := optStrField v "sender", tool_call_id := optStrField v "tool_call_id",
    tool_calls := toolCalls }

/-- One full streamed turn: build the in-progress message, process every
delta, then normalize `message.tool_calls` from the index-keyed
accumulator to an array (`Object.values(message.tool_calls || {})`),
collapsing an empty array back to null. -/
def assembleTurn (origName activeName : String) (deltas : List Value) :
    (List StreamEvent) × Except JsErr Message :=
  let (evs, res) := processDeltas activeName (initStreamMessage origName) deltas
  match res with
  | .error e => (evs, .error e)
  | .ok merged =>
    let vals :=
      match getProp merged "tool_calls" with
      | some t => if truthy t then objValues t else []
      | none => []
    let tcs := vals.map valueToToolCall
    (evs, .ok (valueToMessage merged (if tcs.isEmpty then none else some tcs)))

/-- Observable outcome of `streamGenerator`: the yielded events, the
generator's terminal result, the requests issued and the tools invoked. -/
structure StreamOutcome where
  events : List StreamEvent
  result : ResultR ResponseData
  requests : List CompletionRequest
  invoked : List String

/-- The `while (history.length - initLen < maxTurns)` loop of
`Swarm.streamGenerator` (src/core.ts).  It mirrors the non-streaming loop
except that each turn's assistant message is reassembled from the streamed
deltas and the yielded events are recorded.  The generator's `catch` is
applied where the loop body throws. -/
def streamLoop (origName : String) (modelOverride : Option String) (maxTurns : Option Nat)
    (executeTools : Bool) (initLen : Nat) :
    List (Except JsErr (List Value)) → Agent → List Message → Ctx →
    List StreamEvent → List CompletionRequest → List String → StreamOutcome
  | [], activeAgent, history, context, evs, reqs, inv =>
    if underMax (history.length - initLen) maxTurns then
      ⟨evs, ⟨false, none, some apiScriptErr⟩,
       reqs ++ [mkRequest activeAgent history modelOverride true], inv⟩
    else
      ⟨evs, mkSuccess (List.drop initLen history) activeAgent context, reqs, inv⟩
  | completion :: restScript, activeAgent, history, context, evs, reqs, inv =>
    if underMax (history.length - initLen) maxTurns then
      let reqs := reqs ++ [mkRequest activeAgent history modelOverride true]
      match completion with
      | .error e => ⟨evs, ⟨false, none, some e⟩, reqs, inv⟩
      | .ok deltas =>
        let (tevs, asm) := assembleTurn origName activeAgent.name deltas
        match asm with
        | .error e =>
          ⟨evs ++ [.delimStart] ++ tevs, ⟨false, none, some (catchWrap e)⟩, reqs, inv⟩
        | .ok message =>
          let evs := evs ++ [.delimStart] ++ tevs ++ [.delimEnd]
          let history := history ++ [message]
          match message.tool_calls, executeTools with
          | some tcs, true =>
            let d := handleToolCalls tcs activeAgent context
            (match d.out with
             | .error e => ⟨evs, ⟨false, none, some (catchWrap e)⟩, reqs, inv ++ d.invoked⟩
             | .ok tr =>
               if tr.success = false ∨ tr.data.isNone then
                 ⟨evs, ⟨tr.success, tr.data, tr.error⟩, reqs, inv ++ d.invoked⟩
               else
                 match tr.data with
                 | some rd =>
                   streamLoop origName modelOverride maxTurns executeTools initLen restScript
                     (match rd.agent with
                      | some a => a
                      | none => activeAgent)
                     (history ++ rd.messages)
                     (objectAssign context rd.contextVariables)
                     evs reqs (inv ++ d.invoked)
                 | none => ⟨evs, ⟨tr.success, tr.data, tr.error⟩, reqs, inv ++ d.invoked⟩)
          | _, _ =>
            ⟨evs, mkSuccess (List.drop initLen history) activeAgent context, reqs, inv⟩
    else
      ⟨evs, mkSuccess (List.drop initLen history) activeAgent context, reqs, inv⟩

/-- `Swarm.streamGenerator(agent, messages, contextVariables, options)`
(src/core.ts), with its entry shallow copies of history and context. -/
def streamGenerator (agent : Agent) (messages : List Message) (contextVariables : Ctx)
    (opts : RunOptions) (script : List (Except JsErr (List Value))) : StreamOutcome :=
  streamLoop agent.name opts.modelOverride opts.maxTurns opts.executeTools messages.length
    script agent messages contextVariables [] [] []

/-- `Swarm.runStream` (src/core.ts): it awaits `generator.next()` exactly
once.  When the generator completes before its first yield (`result.done`
with its truthy result value), that terminal result is returned; otherwise
— i.e. as soon as one event exists — the placeholder empty success
`{messages: [], agent: null, contextVariables: {}}` is returned without
draining the rest of the sequence. -/
def runStream (agent : Agent) (messages : List Message) (contextVariables : Ctx)
    (opts : RunOptions) (script : List (Except JsErr (List Value))) : ResultR ResponseData :=
  let g := streamGenerator agent messages contextVariables opts script
  match g.events with
  | [] => g.result
  | _ :: _ => ⟨true, some ⟨[], none, []⟩, none⟩

/-- `Swarm.run` (src/core.ts): with `options.stream` it delegates to
`runStream`, otherwise it runs the non-streaming loop. -/
def run (agent : Agent) (messages : List Message) (contextVariables : Ctx)
    (opts : RunOptions) (script : List (Except JsErr Message))
    (streamScript : List (Except JsErr (List Value))) : RunOutcome :=
  if opts.stream then
    let g := streamGenerator agent messages contextVariables opts streamScript
    ⟨runStream agent messages contextVariables opts streamScript, g.requests, g.invoked⟩
  else
    runNS agent messages contextVariables opts script

/-! ### Heap view of Swarm.run

`run` mutates two JS objects: the `history` array (pushes) and the
`context` object (`Object.assign`).  To express that the CALLER's arrays
and objects are untouched — the entry lines
`const context = { ...contextVariables }` and `const history = [...messages]`
take shallow copies — the same loop is stated over an explicit object
store: references are store indices, the caller passes references to its
own objects, and the entry copies are fresh allocations.  Every mutation
of the loop targets the two fresh references. -/

inductive HObj where
  | msgs (l : List Message)
  | vars (c : Ctx)

abbrev Store := List HObj

def readMsgs (st : Store) (r : Nat) : List Message :=
  match st.get? r with
  | some (.msgs l) => l
  | _ => []

def readVars (st : Store) (r : Nat) : Ctx :=
  match st.get? r with
  | some (.vars c) => c
  | _ => []

def writeObj (st : Store) (r : Nat) (o : HObj) : Store := st.set r o

def alloc (st : Store) (o : HObj) : Store × Nat := (st ++ [o], st.length)

/-- The turn loop of `Swarm.run`, with its two mutable objects held in the
store at `rHist` and `rCtx`.  Statement for statement it is `runLoopNS`:
`history.push` and `Object.assign(context, …)` become writes at those two
references. -/
def runHeapLoop (modelOverride : Option String) (maxTurns : Option Nat) (executeTools : Bool)
    (initLen : Nat) :
    List (Except JsErr Message) → Agent → Store → Nat → Nat →
    List CompletionRequest → List String → RunOutcome × Store
  | [], activeAgent, st, rHist, rCtx, reqs, inv =>
    if underMax ((readMsgs st rHist).length - initLen) maxTurns then
      (⟨⟨false, none, some apiScriptErr⟩,
        reqs ++ [mkRequest activeAgent (readMsgs st rHist) modelOverride false], inv⟩, st)
    else
      (⟨mkSuccess (List.drop initLen (readMsgs st rHist)) activeAgent (readVars st rCtx),
        reqs, inv⟩, st)
  | completion :: restScript, activeAgent, st, rHist, rCtx, reqs, inv =>
    if underMax ((readMsgs st rHist).length - initLen) maxTurns then
      let reqs := reqs ++ [mkRequest activeAgent (readMsgs st rHist) modelOverride false]
      match completion with
      | .error e => (⟨⟨false, none, some e⟩, reqs, inv⟩, st)
      | .ok m0 =>
        let message := { m0 with sender := some activeAgent.name }
        let st1 := writeObj st rHist (.msgs (readMsgs st rHist ++ [message]))
        match message.tool_calls, executeTools with
        | some tcs, true =>
          let d := handleToolCalls tcs activeAgent (readVars st rCtx)
          (match d.out with
           | .error e => (⟨⟨false, none, some (catchWrap e)⟩, reqs, inv ++ d.invoked⟩, st1)
           | .ok tr =>
             if tr.success = false ∨ tr.data.isNone then
               (⟨⟨tr.success, tr.data, tr.error⟩, reqs, inv ++ d.invoked⟩, st1)
             else
               match tr.data with
               | some rd =>
                 let st2 := writeObj st1 rHist
                   (.msgs (readMsgs st rHist ++ [message] ++ rd.messages))
                 let st3 := writeObj st2 rCtx
                   (.vars (objectAssign (readVars st rCtx) rd.contextVariables))
                 runHeapLoop modelOverride maxTurns executeTools initLen restScript
                   (match rd.agent with
                    | some a => a
                    | none => activeAgent)
                   st3 rHist rCtx reqs (inv ++ d.invoked)
               | none => (⟨⟨tr.success, tr.data, tr.error⟩, reqs, inv ++ d.invoked⟩, st1))
        | _, _ =>
          (⟨mkSuccess (List.drop initLen (readMsgs st rHist ++ [message])) activeAgent
             (readVars st rCtx), reqs, inv⟩, st1)
    else
      (⟨mkSuccess (List.drop initLen (readMsgs st rHist)) activeAgent (readVars st rCtx),
        reqs, inv⟩, st)

/-- `Swarm.run`, heap view: the caller's message array lives at `rm` and
its context object at `rc`; the entry copies are fresh allocations and the
loop runs on those. -/
def runHeap (agent : Agent) (rm rc : Nat) (opts : RunOptions)
    (script : List (Except JsErr Message)) (st : Store) : RunOutcome × Store :=
  let (st1, rCtx) := alloc st (.vars (readVars st rc))
  let (st2, rHist) := alloc st1 (.msgs (readMsgs st rm))
  runHeapLoop opts.modelOverride opts.maxTurns opts.executeTools (readMsgs st rm).length
    script agent st2 rHist rCtx [] []

/-! ### Derived views of the dispatch loop -/

/-- The message a single call contributes (meaningful when the call does
not throw). -/
def callMsg (agent : Agent) (ctx : Ctx) (c : ToolCall) : Message :=
  match (callResult agent ctx c).2 with
  | .ok m => m
  | .error _ => ⟨.tool, none, none, none, none⟩

/-- The invoked tool name a single call contributes. -/
def callName (agent : Agent) (ctx : Ctx) (c : ToolCall) : Option String :=
  (callResult agent ctx c).1

/-- Whether a single call completes without throwing. -/
def callOkB (agent : Agent) (ctx : Ctx) (c : ToolCall) : Bool :=
  match (callResult agent ctx c).2 with
  | .ok _ => true
  | .error _ => false

/-- The invoked-name accumulator step of the dispatch loop. -/
def pushInv (nm : Option String) (inv : List String) : List String :=
  match nm with
  | some n => n :: inv
  | none => inv

instance {α β : Type} [DecidableEq α] [DecidableEq β] : DecidableEq (Except α β) :=
  fun a b =>
    match a, b with
    | .error x, .error y =>
      if h : x = y then isTrue (by rw [h]) else isFalse (by intro hc; cases hc; exact h rfl)
    | .ok x, .ok y =>
      if h : x = y then isTrue (by rw [h]) else isFalse (by intro hc; cases hc; exact h rfl)
    | .error _, .ok _ => isFalse (by intro hc; cases hc)
    | .ok _, .error _ => isFalse (by intro hc; cases hc)

/-- Pointwise correspondence between a non-streaming provider script and a
streaming one: failures carry the same error, and each turn's deltas
reassemble (through the full `streamGenerator` pipeline) to exactly the
message the non-streaming provider returns, sender-stamped with the
running agent's name. -/
def scriptsMatch (name : String) :
    List (Except JsErr Message) → List (Except JsErr (List Value)) → Bool
  | [], [] => true
  | .error e :: ns, .error e2 :: ss => e = e2 ∧ scriptsMatch name ns ss
  | .ok m :: ns, .ok ds :: ss =>
    (assembleTurn name name ds).2 = .ok { m with sender := some name } ∧ scriptsMatch name ns ss
  | _, _ => false

/-! ### Concrete fixtures used by witnesses and counterexamples -/

def helloMsg : Message := ⟨.assistant, some "hello", none, none, none⟩

def userHi : Message := ⟨.user, some "hi", none, none, none⟩

def asst (c : String) (tcs : Option (List ToolCall)) : Message :=
  ⟨.assistant, some c, none, none, tcs⟩

/-- A tool return value that names a target agent (B) and exposes a
context-variable delta — the handoff shape of the spec. -/
def handoffValue : Value :=
  .vObj [("name", .vStr "B"), ("model", .vStr "gpt-4o"),
         ("instructions", .vStr "B-instructions"),
         ("context_variables", .vObj [("handoff", .vStr "done")])]

def lookupTool : ToolFn := { name := "lookup", usesCtx := false, body := fun _ => .ok handoffValue }

def throwTool : ToolFn :=
  { name := "t", usesCtx := false, body := fun _ => .error ⟨"Error", "Tool failed", ""⟩ }

def plainTool : ToolFn := { name := "w", usesCtx := false, body := fun _ => .ok (.vStr "w-result") }

def agentA : Agent :=
  { name := "A", model := "gpt-4o-mini", instructions := .text "A-instructions",
    functions := [lookupTool, throwTool, plainTool] }

def callLookup : ToolCall := ⟨"call-1", "function", ⟨"lookup", "\x7b\x7d"⟩⟩

def callThrow : ToolCall := ⟨"call-2", "function", ⟨"t", "\x7b\x7d"⟩⟩

def callBadArgs : ToolCall := ⟨"call-3", "function", ⟨"t", "not json"⟩⟩

def callMiss : ToolCall := ⟨"call-4", "function", ⟨"nope", "\x7b\x7d"⟩⟩

def callPlain : ToolCall := ⟨"call-5", "function", ⟨"w", "\x7b\x7d"⟩⟩

/-- First streamed fragment of the spec's mergeChunk scenario: tool-call
index 0 with id "abc" and empty arguments. -/
def c7chunk1 : Value :=
  .vObj [("tool_calls", .vArr [.vObj [("index", .vNum "0"), ("id", .vStr "abc"),
         ("function", .vObj [("arguments", .vStr "")])]])]

/-- Second streamed fragment: index 0, no id, arguments fragment "{}". -/
def c7chunk2 : Value :=
  .vObj [("tool_calls", .vArr [.vObj [("index", .vNum "0"),
         ("function", .vObj [("arguments", .vStr "\x7b\x7d")])]])]

def deltaHello : Value := .vObj [("content", .vStr "hello")]

def ctx0 : Ctx := [("k0", .vStr "v0")]

/-- Run in which agent A's tool "lookup" returns the handoff value: first
turn requests a `lookup` call, second turn ends the conversation. -/
def c1outcome : RunOutcome :=
  runNS agentA [userHi] ctx0 {}
    [.ok (asst "" (some [callLookup])), .ok (asst "done" none)]

/-- Run in which a registered tool throws (a later call and a second turn
are scripted to show they never execute). -/
def c2outcome : RunOutcome :=
  runNS agentA [userHi] [] {}
    [.ok (asst "" (some [callThrow, callPlain])), .ok (asst "done" none)]

/-- Run in which a dispatched call carries unparseable arguments. -/
def c3outcome : RunOutcome :=
  runNS agentA [userHi] [] {}
    [.ok (asst "" (some [callBadArgs, callPlain])), .ok (asst "done" none)]

/-! ### RetryExecutor: claims C6 and C10 -/

/-- The delay sequence stated by the spec: d₁ = initialDelay,
dᵢ₊₁ = min(2 dᵢ, maxDelay); `claimDelay init maxD i` is dᵢ₊₁. -/
def claimDelay (init maxD : Nat) : Nat → Nat
  | 0 => init
  | i + 1 => min (2 * claimDelay init maxD i) maxD

theorem claimDelay_shift (init maxD i : Nat) :
    claimDelay init maxD (i + 1) = claimDelay (min (2 * init) maxD) maxD i := by
  induction i with
  | zero => rfl
  | succ j ih =>
    show min (2 * claimDelay init maxD (j + 1)) maxD = _
    rw [ih]
    rfl

theorem claimDelay_le (init maxD : Nat) (h : init ≤ maxD) (i : Nat) :
    claimDelay init maxD i ≤ maxD := by
  cases i with
  | zero => exact h
  | succ j => exact min_le_right _ _

theorem retryGo_allfail {α : Type} (op : Nat → Except JsErr α) (e : Nat → JsErr)
    (hop : ∀ i, op i = .error (e i)) (n maxD : Nat) :
    ∀ remaining attempt delay le acc, 1 ≤ remaining → attempt + remaining = n + 1 →
      retryGo op n maxD remaining attempt delay le acc =
        ⟨.error (e n), n, acc.reverse ++ (List.range (remaining - 1)).map (claimDelay delay maxD),
         false⟩ := by
  intro remaining
  induction remaining with
  | zero => intro _ _ _ _ h; omega
  | succ r ih =>
    intro attempt delay le acc _ hsum
    rw [retryGo]
    cases hcase : op attempt with
    | ok v =>
      rw [hop attempt] at hcase
      exact absurd hcase (by simp)
    | error e2 =>
    have he2 : e2 = e attempt := by
      rw [hop attempt] at hcase
      injection hcase with h2
      exact h2.symm
    subst he2
    show (if attempt < n then
        retryGo op n maxD r (attempt + 1) (min (delay * 2) maxD) (some (e attempt)) (delay :: acc)
      else retryGo op n maxD r (attempt + 1) delay (some (e attempt)) acc) = _
    by_cases hlt : attempt < n
    · rw [if_pos hlt,
        ih (attempt + 1) (min (delay * 2) maxD) (some (e attempt)) (delay :: acc)
          (by omega) (by omega)]
      have hrange : (List.range r).map (claimDelay delay maxD) =
          delay :: (List.range (r - 1)).map (claimDelay (min (delay * 2) maxD) maxD) := by
        obtain ⟨r0, rfl⟩ : ∃ r0, r = r0 + 1 := ⟨r - 1, by omega⟩
        rw [List.range_succ_eq_map, List.map_cons, List.map_map]
        have hfun : claimDelay delay maxD ∘ Nat.succ = claimDelay (min (delay * 2) maxD) maxD := by
          funext i
          show claimDelay delay maxD (i + 1) = _
          rw [claimDelay_shift, Nat.mul_comm 2 delay]
        rw [hfun]
        rfl
      refine congrArg (fun l => RetryOutcome.mk (.error (e n)) n l false) ?_
      rw [Nat.add_sub_cancel, List.reverse_cons, hrange]
      simp
    · have hn : attempt = n := by omega
      have hr : r = 0 := by omega
      subst hn hr
      simp only [if_neg hlt]
      rw [retryGo]
      simp

/-- C6: for every always-failing operation and config
{maxRetries = n ≥ 1, initialDelay = 1000, maxDelay = 10000}, `retry` makes
exactly n attempts, sleeps between consecutive attempts following
d₁ = 1000, dᵢ₊₁ = min(2 dᵢ, 10000) (so 1000, 2000, 4000, 8000, 10000,
10000, …, never exceeding 10000), performs n − 1 sleeps (none after the
final failed attempt), and propagates the final attempt's failure. -/
theorem retry_backoff_sequence {α : Type} (n : Nat) (hn : 1 ≤ n)
    (op : Nat → Except JsErr α) (e : Nat → JsErr) (hop : ∀ i, op i = .error (e i)) :
    (retry op ⟨(n : Int), 1000, 10000⟩).result = .error (e n) ∧
    (retry op ⟨(n : Int), 1000, 10000⟩).attemptsMade = n ∧
    (retry op ⟨(n : Int), 1000, 10000⟩).sleeps =
      (List.range (n - 1)).map (claimDelay 1000 10000) ∧
    (retry op ⟨(n : Int), 1000, 10000⟩).sleeps.length = n - 1 ∧
    (∀ d ∈ (retry op ⟨(n : Int), 1000, 10000⟩).sleeps, d ≤ 10000) := by
  have hgo := retryGo_allfail op e hop n 10000 n 1 1000 none [] hn (by omega)
  have hretry : retry op ⟨(n : Int), 1000, 10000⟩ =
      ⟨.error (e n), n, (List.range (n - 1)).map (claimDelay 1000 10000), false⟩ := by
    rw [retry]
    simpa using hgo
  rw [hretry]
  refine ⟨rfl, rfl, rfl, by simp, ?_⟩
  intro d hd
  simp only [List.mem_map] at hd
  obtain ⟨i, _, rfl⟩ := hd
  exact claimDelay_le 1000 10000 (by omega) i

/-- Concrete instance of C6: seven always-failing attempts sleep
1000, 2000, 4000, 8000, 10000, 10000 milliseconds. -/
theorem retry_backoff_sequence_witness :
    (retry (fun _ => (.error ⟨"Error", "boom", ""⟩ : Except JsErr Nat)) ⟨((7 : Nat) : Int), 1000, 10000⟩).sleeps
        = [1000, 2000, 4000, 8000, 10000, 10000] ∧
    (retry (fun _ => (.error ⟨"Error", "boom", ""⟩ : Except JsErr Nat)) ⟨((7 : Nat) : Int), 1000, 10000⟩).attemptsMade = 7 := by
  have h := retry_backoff_sequence (α := Nat) 7 (by omega)
    (fun _ => .error ⟨"Error", "boom", ""⟩) (fun _ => ⟨"Error", "boom", ""⟩)
    (fun _ => rfl)
  refine ⟨?_, h.2.1⟩
  rw [h.2.2.1]
  rfl

theorem retryGo_no_fallback {α : Type} (op : Nat → Except JsErr α) (n maxD : Nat) :
    ∀ remaining attempt delay le acc, 1 ≤ remaining ∨ le.isSome →
      (retryGo op n maxD remaining attempt delay le acc).usedFallback = false := by
  intro remaining
  induction remaining with
  | zero =>
    intro _ _ le _ h
    match le, h with
    | some e, _ => rw [retryGo]
  | succ r ih =>
    intro attempt delay le acc _
    rw [retryGo]
    cases hop : op attempt with
    | ok v => rfl
    | error e =>
      by_cases hlt : attempt < n
      · simp only [if_pos hlt]
        exact ih (attempt + 1) (min (delay * 2) maxD) (some e) (delay :: acc) (Or.inr rfl)
      · simp only [if_neg hlt]
        exact ih (attempt + 1) delay (some e) acc (Or.inr rfl)

/-- C10: with maxRetries ≤ 0 the retry loop body never runs — the
operation is not invoked, no sleep happens, and the synthetic fallback
error "Operation failed with unknown error" is thrown; and whenever
maxRetries ≥ 1 the fallback branch is unreachable. -/
theorem retry_nonpositive_fallback {α : Type} (op : Nat → Except JsErr α)
    (cfg : RetryConfig) (h : cfg.maxRetries ≤ 0) :
    (retry op cfg).result = .error ⟨"Error", "Operation failed with unknown error", ""⟩ ∧
    (retry op cfg).attemptsMade = 0 ∧
    (retry op cfg).sleeps = [] ∧
    (retry op cfg).usedFallback = true ∧
    (∀ (op2 : Nat → Except JsErr α) (cfg2 : RetryConfig), 1 ≤ cfg2.maxRetries →
      (retry op2 cfg2).usedFallback = false) := by
  have h0 : cfg.maxRetries.toNat = 0 := Int.toNat_of_nonpos h
  have hr : retry op cfg =
      ⟨.error ⟨"Error", "Operation failed with unknown error", ""⟩, 0, [], true⟩ := by
    rw [retry, h0]
    rfl
  refine ⟨?_, ?_, ?_, ?_, ?_⟩
  · rw [hr]
  · rw [hr]
  · rw [hr]
  · rw [hr]
  · intro op2 cfg2 h1
    have h2 : 1 ≤ cfg2.maxRetries.toNat := by omega
    exact retryGo_no_fallback op2 cfg2.maxRetries.toNat cfg2.maxDelay _ 1 cfg2.initialDelay
      none [] (Or.inl h2)

/-- Concrete instance of C10: maxRetries = 0 yields the synthetic error
with zero invocations. -/
theorem retry_nonpositive_fallback_witness :
    (retry (fun _ => (.ok 0 : Except JsErr Nat)) ⟨(0 : Int), 1000, 10000⟩).attemptsMade = 0 ∧
    (retry (fun _ => (.ok 0 : Except JsErr Nat)) ⟨(0 : Int), 1000, 10000⟩).result
      = .error ⟨"Error", "Operation failed with unknown error", ""⟩ := by
  have h := retry_nonpositive_fallback (fun _ => (.ok 0 : Except JsErr Nat))
    ⟨(0 : Int), 1000, 10000⟩ (by decide)
  exact ⟨h.2.1, h.1⟩

/-! ### DeltaMerger: claim C7 -/

/-- C7: the spec's mergeChunk scenario (chunk₁: index 0, id "abc", empty
arguments; chunk₂: index 0, no id, arguments "{}") on a fresh accumulator.
The id asymmetry holds — "abc" is kept, never cleared or concatenated —
but the final arguments text is "{}{}", not the claimed "{}": `mergeChunk`
merges the delta's `tool_calls` once through the initial `mergeFields`
over the whole delta and a second time through the dedicated tool-call
handling, so streamed name/arguments fragments are concatenated twice. -/
theorem mergeChunk_doubles_streamed_arguments :
    (mergeChunk (.vObj []) c7chunk1 >>= fun acc => mergeChunk acc c7chunk2) =
      .ok (.vObj [("tool_calls", .vObj [("0", .vObj [("id", .vStr "abc"),
        ("function", .vObj [("arguments", .vStr "\x7b\x7d\x7b\x7d")])])])]) ∧
    "\x7b\x7d\x7b\x7d" ≠ "\x7b\x7d" :=
  ⟨rfl, by decide⟩

/-! ### ToolDispatcher and ConversationEngine: claims C1, C2, C3 -/

/-- C1: the handoff and context-delta behaviour the spec ascribes to
`handleToolCalls` does not exist in the code.  In `c1outcome` the tool
"lookup" returns a value naming agent B and exposing a context-variable
delta, yet: the dispatch result's agent stays null and the returned value
is merely JSON-stringified into the tool message; both completion requests
use A's instructions as the system message; the reported active agent is
still A; and the context mapping is unchanged. -/
theorem run_ignores_handoff_and_context_delta :
    (handleToolCalls [callLookup] agentA ctx0).out =
      .ok ⟨true, some ⟨[⟨.tool,
        some "\x7b\"name\":\"B\",\"model\":\"gpt-4o\",\"instructions\":\"B-instructions\",\"context_variables\":\x7b\"handoff\":\"done\"\x7d\x7d",
        none, some "call-1", none⟩], none, ctx0⟩, none⟩ ∧
    c1outcome.result.success = true ∧
    c1outcome.requests.map (fun r => r.messages.head?.bind (fun m => m.content)) =
      [some "A-instructions", some "A-instructions"] ∧
    c1outcome.result.data.map (fun d => d.agent.map (fun a => a.name)) = some (some "A") ∧
    c1outcome.result.data.map (fun d => d.contextVariables) = some ctx0 ∧
    c1outcome.invoked = ["lookup"] :=
  ⟨rfl, rfl, rfl, rfl, rfl, rfl⟩

/-- C2: when a registered tool's body throws, the run does abort — exactly
one completion request is made, the throwing call is the last dispatch,
and the result is a failure — but the failure object the `catch` block of
`run` builds carries `code = "UNKNOWN_ERROR"` (only `name` says
"ToolExecutionError"), not the `TOOL_EXECUTION_ERROR` tag the claim (and
the repository's own test, which expects a `ToolExecutionError` instance)
require. -/
theorem tool_throw_aborts_with_unknown_code :
    c2outcome.result.success = false ∧
    c2outcome.result.error =
      some ⟨"ToolExecutionError", "Failed to execute tool t: Tool failed", "UNKNOWN_ERROR"⟩ ∧
    c2outcome.requests.length = 1 ∧
    c2outcome.invoked = ["t"] ∧
    c2outcome.result.error.map (fun e => e.code) ≠ some "TOOL_EXECUTION_ERROR" :=
  ⟨rfl, rfl, rfl, rfl, by decide⟩

/-- Counterexample to C3: a run whose dispatched call has unparseable
arguments does abort, but the resulting failure is not tagged
VALIDATION_ERROR: the `ValidationError` thrown by `parseArguments` is
rethrown by `handleToolCalls` as a `ToolExecutionError` and the `catch`
of `run` then hard-codes `code = "UNKNOWN_ERROR"`. -/
theorem parse_failure_not_validation_tagged :
    c3outcome.result.success = false ∧
    c3outcome.result.error.map (fun e => e.code) = some "UNKNOWN_ERROR" ∧
    (some "UNKNOWN_ERROR" : Option String) ≠ some "VALIDATION_ERROR" ∧
    c3outcome.result.error.map (fun e => e.name) = some "ToolExecutionError" ∧
    c3outcome.result.error.map (fun e => e.message) =
      some "Failed to execute tool t: Failed to parse function arguments: not json" ∧
    c3outcome.invoked = [] :=
  ⟨rfl, rfl, by decide, rfl, rfl, rfl⟩

/-! ### Dispatch-loop lemmas -/

theorem handleToolCallsGo_cons_ok (agent : Agent) (ctx : Ctx) (tc : ToolCall)
    (rest : List ToolCall) (resp : ResponseData) (inv : List String)
    (nm : Option String) (msg : Message) (h : callResult agent ctx tc = (nm, .ok msg)) :
    handleToolCallsGo agent ctx (tc :: rest) resp inv =
      handleToolCallsGo agent ctx rest { resp with messages := resp.messages ++ [msg] }
        (pushInv nm inv) := by
  simp only [handleToolCallsGo, h, pushInv]

theorem handleToolCallsGo_cons_err (agent : Agent) (ctx : Ctx) (tc : ToolCall)
    (rest : List ToolCall) (resp : ResponseData) (inv : List String)
    (nm : Option String) (e : JsErr) (h : callResult agent ctx tc = (nm, .error e)) :
    handleToolCallsGo agent ctx (tc :: rest) resp inv =
      ⟨.error e, (pushInv nm inv).reverse⟩ := by
  simp only [handleToolCallsGo, h, pushInv]

theorem handleToolCallsGo_append_ok (agent : Agent) (ctx : Ctx) (pre : List ToolCall)
    (hok : ∀ c ∈ pre, callOkB agent ctx c = true) :
    ∀ (ys : List ToolCall) (resp : ResponseData) (inv : List String),
      handleToolCallsGo agent ctx (pre ++ ys) resp inv =
        handleToolCallsGo agent ctx ys
          { resp with messages := resp.messages ++ pre.map (callMsg agent ctx) }
          ((pre.filterMap (callName agent ctx)).reverse ++ inv) := by
  induction pre with
  | nil => intro ys resp inv; simp
  | cons c rest ih =>
    intro ys resp inv
    have hc : callOkB agent ctx c = true := hok c (by simp)
    obtain ⟨nm, r⟩ : ∃ nm r, callResult agent ctx c = (nm, r) :=
      ⟨(callResult agent ctx c).1, (callResult agent ctx c).2, rfl⟩
    obtain ⟨r, hcr⟩ := r
    cases r with
    | error e =>
      rw [callOkB, hcr] at hc
      simp at hc
    | ok msg =>
      rw [List.cons_append, handleToolCallsGo_cons_ok agent ctx c (rest ++ ys) resp inv nm msg hcr,
        ih (fun x hx => hok x (by simp [hx])) ys]
      have hmsg : callMsg agent ctx c = msg := by rw [callMsg, hcr]
      have hname : callName agent ctx c = nm := by rw [callName, hcr]
      rw [List.map_cons, List.filterMap_cons, hmsg, hname]
      cases nm with
      | none => simp [pushInv]
      | some n => simp [pushInv]

theorem handleToolCallsGo_all_ok (agent : Agent) (ctx : Ctx) (calls : List ToolCall)
    (hok : ∀ c ∈ calls, callOkB agent ctx c = true) (resp : ResponseData) (inv : List String) :
    handleToolCallsGo agent ctx calls resp inv =
      ⟨.ok ⟨true, some { resp with messages := resp.messages ++ calls.map (callMsg agent ctx) },
        none⟩, inv.reverse ++ calls.filterMap (callName agent ctx)⟩ := by
  have h := handleToolCallsGo_append_ok agent ctx calls hok [] resp inv
  rw [List.append_nil] at h
  rw [h, handleToolCallsGo]
  simp

theorem handleToolCalls_all_ok (agent : Agent) (ctx : Ctx) (calls : List ToolCall)
    (hok : ∀ c ∈ calls, callOkB agent ctx c = true) :
    handleToolCalls calls agent ctx =
      ⟨.ok ⟨true, some ⟨calls.map (callMsg agent ctx), none, ctx⟩, none⟩,
       calls.filterMap (callName agent ctx)⟩ := by
  have h := handleToolCallsGo_append_ok agent ctx calls hok [] ⟨[], none, ctx⟩ []
  rw [List.append_nil] at h
  rw [handleToolCalls, h, handleToolCallsGo]
  simp

theorem handleToolCallsGo_agent (agent : Agent) (ctx : Ctx) :
    ∀ (calls : List ToolCall) (resp : ResponseData) (inv : List String)
      (s : Bool) (rd : ResponseData) (er : Option JsErr),
      (handleToolCallsGo agent ctx calls resp inv).out = .ok ⟨s, some rd, er⟩ →
      rd.agent = resp.agent := by
  intro calls
  induction calls with
  | nil =>
    intro resp inv s rd er h
    rw [handleToolCallsGo] at h
    simp only [Except.ok.injEq, ResultR.mk.injEq, Option.some.injEq] at h
    obtain ⟨-, hd, -⟩ := h
    rw [← hd]
  | cons c rest ih =>
    intro resp inv s rd er h
    obtain ⟨nm, r⟩ : ∃ nm r, callResult agent ctx c = (nm, r) :=
      ⟨(callResult agent ctx c).1, (callResult agent ctx c).2, rfl⟩
    obtain ⟨r, hcr⟩ := r
    cases r with
    | error e =>
      rw [handleToolCallsGo_cons_err agent ctx c rest resp inv nm e hcr] at h
      cases h
    | ok msg =>
      rw [handleToolCallsGo_cons_ok agent ctx c rest resp inv nm msg hcr] at h
      exact ih { resp with messages := resp.messages ++ [msg] } (pushInv nm inv) s rd er h

/-- `handleToolCalls` never signals a handoff: the accumulator's agent is
created null and never assigned. -/
theorem handleToolCalls_agent_none (agent : Agent) (ctx : Ctx) (calls : List ToolCall)
    (s : Bool) (rd : ResponseData) (er : Option JsErr)
    (h : (handleToolCalls calls agent ctx).out = .ok ⟨s, some rd, er⟩) :
    rd.agent = none :=
  handleToolCallsGo_agent agent ctx calls ⟨[], none, ctx⟩ [] s rd er h

/-! ### Run-loop step lemmas -/

theorem runLoopNS_step_break (mo : Option String) (mt : Option Nat) (et : Bool) (initLen : Nat)
    (rest : List (Except JsErr Message)) (agent : Agent) (history : List Message) (ctx : Ctx)
    (reqs : List CompletionRequest) (inv : List String) (m : Message)
    (hcond : underMax (history.length - initLen) mt = true) (hm : m.tool_calls = none) :
    runLoopNS mo mt et initLen (.ok m :: rest) agent history ctx reqs inv =
      ⟨mkSuccess (List.drop initLen (history ++ [{ m with sender := some agent.name }])) agent ctx,
       reqs ++ [mkRequest agent history mo false], inv⟩ := by
  rw [runLoopNS, if_pos hcond]
  show (match ({ m with sender := some agent.name } : Message).tool_calls, et with
    | some tcs, true => _
    | _, _ => _) = _
  rw [show ({ m with sender := some agent.name } : Message).tool_calls = m.tool_calls from rfl, hm]

theorem runLoopNS_step_dispatch (mo : Option String) (mt : Option Nat) (initLen : Nat)
    (rest : List (Except JsErr Message)) (agent : Agent) (history : List Message) (ctx : Ctx)
    (reqs : List CompletionRequest) (inv : List String) (m : Message) (calls : List ToolCall)
    (rd : ResponseData) (invd : List String)
    (hcond : underMax (history.length - initLen) mt = true)
    (hm : m.tool_calls = some calls)
    (hd : handleToolCalls calls agent ctx = ⟨.ok ⟨true, some rd, none⟩, invd⟩)
    (hagent : rd.agent = none) :
    runLoopNS mo mt true initLen (.ok m :: rest) agent history ctx reqs inv =
      runLoopNS mo mt true initLen rest agent
        (history ++ [{ m with sender := some agent.name }] ++ rd.messages)
        (objectAssign ctx rd.contextVariables)
        (reqs ++ [mkRequest agent history mo false]) (inv ++ invd) := by
  rw [runLoopNS, if_pos hcond]
  show (match ({ m with sender := some agent.name } : Message).tool_calls, true with
    | some tcs, true => _
    | _, _ => _) = _
  rw [show ({ m with sender := some agent.name } : Message).tool_calls = m.tool_calls from rfl,
    hm]
  show (match (handleToolCalls calls agent ctx).out with
    | .error e => _
    | .ok tr => _) = _
  rw [hd]
  show (if (true : Bool) = false ∨ (some rd : Option ResponseData).isNone then _ else _) = _
  rw [if_neg (by simp)]
  show runLoopNS mo mt true initLen rest
    (match rd.agent with
     | some a => a
     | none => agent) _ _ _ _ = _
  rw [hagent]

theorem runLoopNS_step_throw (mo : Option String) (mt : Option Nat) (initLen : Nat)
    (rest : List (Except JsErr Message)) (agent : Agent) (history : List Message) (ctx : Ctx)
    (reqs : List CompletionRequest) (inv : List String) (m : Message) (calls : List ToolCall)
    (e : JsErr) (invd : List String)
    (hcond : underMax (history.length - initLen) mt = true)
    (hm : m.tool_calls = some calls)
    (hd : handleToolCalls calls agent ctx = ⟨.error e, invd⟩) :
    runLoopNS mo mt true initLen (.ok m :: rest) agent history ctx reqs inv =
      ⟨⟨false, none, some (catchWrap e)⟩,
       reqs ++ [mkRequest agent history mo false], inv ++ invd⟩ := by
  rw [runLoopNS, if_pos hcond]
  show (match ({ m with sender := some agent.name } : Message).tool_calls, true with
    | some tcs, true => _
    | _, _ => _) = _
  rw [show ({ m with sender := some agent.name } : Message).tool_calls = m.tool_calls from rfl,
    hm]
  show (match (handleToolCalls calls agent ctx).out with
    | .error e => _
    | .ok tr => _) = _
  rw [hd]

theorem callResult_miss (agent : Agent) (ctx : Ctx) (c : ToolCall)
    (h : agent.functions.find? (fun f => f.name = c.function.name) = none) :
    callResult agent ctx c =
      (none, .ok ⟨.tool, some ("Error: Tool " ++ c.function.name ++ " not found."), none,
        some c.id, none⟩) := by
  simp only [callResult, h]

theorem callResult_parse_fail (agent : Agent) (ctx : Ctx) (c : ToolCall) (f : ToolFn) (pe : JsErr)
    (hfind : agent.functions.find? (fun g => g.name = c.function.name) = some f)
    (hparse : parseArguments c.function.arguments = .error pe) :
    callResult agent ctx c = (none, .error (toolExecErr c.function.name pe)) := by
  simp only [callResult, hfind, hparse]
  rfl

/-- C8: a tool call naming a tool that is not registered on the active
agent is recoverable.  With every other call of the turn succeeding,
`handleToolCalls` succeeds, appends exactly one tool-role message carrying
the explanatory error `Error: Tool <name> not found.` keyed to that call's
id (in the missing call's position, between the other calls' messages),
invokes exactly the other calls' tools, and a run whose first turn issues
these calls and whose second turn carries no tool calls completes with a
success result. -/
theorem unregistered_tool_is_recoverable
    (agent : Agent) (ctx : Ctx) (pre post : List ToolCall) (miss : ToolCall)
    (hmiss : agent.functions.find? (fun f => f.name = miss.function.name) = none)
    (hok : ∀ c ∈ pre ++ post, callOkB agent ctx c = true) :
    handleToolCalls (pre ++ miss :: post) agent ctx =
      ⟨.ok ⟨true, some ⟨pre.map (callMsg agent ctx) ++
          ⟨.tool, some ("Error: Tool " ++ miss.function.name ++ " not found."), none,
           some miss.id, none⟩ :: post.map (callMsg agent ctx), none, ctx⟩, none⟩,
       (pre ++ post).filterMap (callName agent ctx)⟩ ∧
    (∀ (messages : List Message) (m m2 : Message) (mo : Option String),
      m.tool_calls = some (pre ++ miss :: post) → m2.tool_calls = none →
      (runNS agent messages ctx ⟨mo, false, none, true⟩ [.ok m, .ok m2]).result.success
        = true) := by
  have hpre : ∀ c ∈ pre, callOkB agent ctx c = true := fun c hc => hok c (by simp [hc])
  have hpost : ∀ c ∈ post, callOkB agent ctx c = true := fun c hc => hok c (by simp [hc])
  have hmain : handleToolCalls (pre ++ miss :: post) agent ctx =
      ⟨.ok ⟨true, some ⟨pre.map (callMsg agent ctx) ++
          ⟨.tool, some ("Error: Tool " ++ miss.function.name ++ " not found."), none,
           some miss.id, none⟩ :: post.map (callMsg agent ctx), none, ctx⟩, none⟩,
       (pre ++ post).filterMap (callName agent ctx)⟩ := by
    rw [handleToolCalls,
      handleToolCallsGo_append_ok agent ctx pre hpre (miss :: post) ⟨[], none, ctx⟩ [],
      handleToolCallsGo_cons_ok agent ctx miss post _ _ none _ (callResult_miss agent ctx miss hmiss),
      handleToolCallsGo_all_ok agent ctx post hpost]
    simp [pushInv, List.filterMap_append]
  refine ⟨hmain, ?_⟩
  intro messages m m2 mo hm hm2
  rw [runNS,
    runLoopNS_step_dispatch mo none messages.length [.ok m2] agent messages ctx [] [] m
      (pre ++ miss :: post) _ _ rfl hm hmain rfl,
    runLoopNS_step_break mo none true messages.length [] agent _ _ _ _ m2 rfl hm2]
  rfl

/-- Concrete instance of C8: a turn issuing calls w (registered), nope
(unregistered) and lookup (registered) succeeds, appends the error
message for nope in place, and the run completes successfully. -/
theorem unregistered_tool_is_recoverable_witness :
    (handleToolCalls [callPlain, callMiss, callLookup] agentA ctx0).out =
      .ok ⟨true, some ⟨[⟨.tool, some "w-result", none, some "call-5", none⟩,
        ⟨.tool, some "Error: Tool nope not found.", none, some "call-4", none⟩,
        ⟨.tool,
         some "\x7b\"name\":\"B\",\"model\":\"gpt-4o\",\"instructions\":\"B-instructions\",\"context_variables\":\x7b\"handoff\":\"done\"\x7d\x7d",
         none, some "call-1", none⟩], none, ctx0⟩, none⟩ ∧
    (handleToolCalls [callPlain, callMiss, callLookup] agentA ctx0).invoked = ["w", "lookup"] ∧
    (runNS agentA [userHi] ctx0 ⟨none, false, none, true⟩
      [.ok (asst "" (some [callPlain, callMiss, callLookup])), .ok (asst "done" none)]).result.success = true := by
  have h := unregistered_tool_is_recoverable agentA ctx0 [callPlain] [callLookup] callMiss
    rfl (by decide)
  refine ⟨?_, ?_, ?_⟩
  · rw [show ([callPlain] ++ callMiss :: [callLookup]) = [callPlain, callMiss, callLookup] from rfl] at h
    rw [h.1]
    rfl
  · rw [show ([callPlain] ++ callMiss :: [callLookup]) = [callPlain, callMiss, callLookup] from rfl] at h
    rw [h.1]
    rfl
  · exact h.2 [userHi] (asst "" (some [callPlain, callMiss, callLookup])) (asst "done" none)
      none rfl rfl

/-- C3 (amended): a dispatched call whose raw argument payload fails to
parse aborts the whole run — the calls after it never execute and only
one completion request is made — but the failure is reported as a
`ToolExecutionError` wrapping whose run-level error object carries
`code = "UNKNOWN_ERROR"` (the parse failure's message, preserving the
offending text, is embedded), not as a VALIDATION_ERROR-tagged error. -/
theorem parse_failure_aborts_run (agent : Agent) (ctx : Ctx) (tc : ToolCall)
    (post : List ToolCall) (f : ToolFn) (pe : JsErr)
    (hfind : agent.functions.find? (fun g => g.name = tc.function.name) = some f)
    (hparse : parseArguments tc.function.arguments = .error pe) :
    (handleToolCalls (tc :: post) agent ctx).out = .error (toolExecErr tc.function.name pe) ∧
    (handleToolCalls (tc :: post) agent ctx).invoked = [] ∧
    (∀ (messages : List Message) (m : Message) (rest : List (Except JsErr Message))
       (mo : Option String),
      m.tool_calls = some (tc :: post) →
      (runNS agent messages ctx ⟨mo, false, none, true⟩ (.ok m :: rest)) =
        ⟨⟨false, none, some ⟨"ToolExecutionError",
           "Failed to execute tool " ++ tc.function.name ++ ": " ++ pe.message,
           "UNKNOWN_ERROR"⟩⟩,
         [mkRequest agent messages mo false], []⟩) := by
  have hcall := callResult_parse_fail agent ctx tc f pe hfind hparse
  have hd : handleToolCalls (tc :: post) agent ctx =
      ⟨.error (toolExecErr tc.function.name pe), []⟩ := by
    rw [handleToolCalls,
      handleToolCallsGo_cons_err agent ctx tc post _ _ none _ hcall]
    rfl
  refine ⟨by rw [hd], by rw [hd], ?_⟩
  intro messages m rest mo hm
  rw [runNS,
    runLoopNS_step_throw mo none messages.length rest agent messages ctx [] [] m (tc :: post)
      (toolExecErr tc.function.name pe) [] rfl hm hd]
  rfl

/-- Concrete instance of C3 (amended): the registered tool "t" called with
arguments "not json" aborts the run with the wrapped failure. -/
theorem parse_failure_aborts_run_witness :
    (handleToolCalls [callBadArgs] agentA []).out =
      .error ⟨"ToolExecutionError",
        "Failed to execute tool t: Failed to parse function arguments: not json",
        "TOOL_EXECUTION_ERROR"⟩ ∧
    (runNS agentA [userHi] [] ⟨none, false, none, true⟩
        [.ok (asst "" (some [callBadArgs]))]).result.error =
      some ⟨"ToolExecutionError",
        "Failed to execute tool t: Failed to parse function arguments: not json",
        "UNKNOWN_ERROR"⟩ := by
  have h := parse_failure_aborts_run agentA [] callBadArgs [] throwTool
    ⟨"ValidationError", "Failed to parse function arguments: not json", "VALIDATION_ERROR"⟩
    rfl rfl
  refine ⟨h.1, ?_⟩
  rw [h.2.2 [userHi] (asst "" (some [callBadArgs])) [] none rfl]
  rfl

/-- C5: with maxTurns = 1 and a first completion that is an assistant
message "hello" without tool calls, the run terminates after exactly one
completion request with a success result whose messages list is the single
element {role: assistant, content: "hello"} (sender-stamped with the
agent's name, as the engine does for every assistant message); any further
scripted provider responses are never requested. -/
theorem single_turn_no_tool_calls (agent : Agent) (messages : List Message) (ctx : Ctx)
    (mo : Option String) (rest : List (Except JsErr Message)) :
    (runNS agent messages ctx ⟨mo, false, some 1, true⟩ (.ok helloMsg :: rest)).result =
      mkSuccess [{ helloMsg with sender := some agent.name }] agent ctx ∧
    (runNS agent messages ctx ⟨mo, false, some 1, true⟩ (.ok helloMsg :: rest)).result.data.map
        (fun d => d.messages.map (fun mm => (mm.role, mm.content))) =
      some [(.assistant, some "hello")] ∧
    (runNS agent messages ctx ⟨mo, false, some 1, true⟩ (.ok helloMsg :: rest)).requests =
      [mkRequest agent messages mo false] := by
  have hstep := runLoopNS_step_break mo (some 1) true messages.length rest agent messages ctx
    [] [] helloMsg (by simp [underMax]) rfl
  rw [runNS, hstep]
  have hdrop : List.drop messages.length
      (messages ++ [({ helloMsg with sender := some agent.name } : Message)]) =
      [{ helloMsg with sender := some agent.name }] := List.drop_left messages _
  refine ⟨?_, ?_, ?_⟩
  · show mkSuccess _ agent ctx = _
    rw [hdrop]
  · show (mkSuccess _ agent ctx).data.map _ = _
    rw [hdrop]
    rfl
  · rfl

/-! ### Remaining step lemmas and the dispatch shape lemma -/

theorem runLoopNS_step_err (mo : Option String) (mt : Option Nat) (et : Bool) (initLen : Nat)
    (rest : List (Except JsErr Message)) (agent : Agent) (history : List Message) (ctx : Ctx)
    (reqs : List CompletionRequest) (inv : List String) (e : JsErr)
    (hcond : underMax (history.length - initLen) mt = true) :
    runLoopNS mo mt et initLen (.error e :: rest) agent history ctx reqs inv =
      ⟨⟨false, none, some e⟩, reqs ++ [mkRequest agent history mo false], inv⟩ := by
  rw [runLoopNS, if_pos hcond]

theorem runLoopNS_step_noexec (mo : Option String) (mt : Option Nat) (initLen : Nat)
    (rest : List (Except JsErr Message)) (agent : Agent) (history : List Message) (ctx : Ctx)
    (reqs : List CompletionRequest) (inv : List String) (m : Message)
    (hcond : underMax (history.length - initLen) mt = true) :
    runLoopNS mo mt false initLen (.ok m :: rest) agent history ctx reqs inv =
      ⟨mkSuccess (List.drop initLen (history ++ [{ m with sender := some agent.name }])) agent ctx,
       reqs ++ [mkRequest agent history mo false], inv⟩ := by
  rw [runLoopNS, if_pos hcond]
  show (match ({ m with sender := some agent.name } : Message).tool_calls, false with
    | some tcs, true => _
    | _, _ => _) = _
  cases ({ m with sender := some agent.name } : Message).tool_calls <;> rfl

theorem runLoopNS_stop (mo : Option String) (mt : Option Nat) (et : Bool) (initLen : Nat)
    (script : List (Except JsErr Message)) (agent : Agent) (history : List Message) (ctx : Ctx)
    (reqs : List CompletionRequest) (inv : List String)
    (hcond : underMax (history.length - initLen) mt = false) :
    runLoopNS mo mt et initLen script agent history ctx reqs inv =
      ⟨mkSuccess (List.drop initLen history) agent ctx, reqs, inv⟩ := by
  cases script with
  | nil => rw [runLoopNS, if_neg (by rw [hcond]; exact Bool.false_ne_true)]
  | cons c rest => rw [runLoopNS, if_neg (by rw [hcond]; exact Bool.false_ne_true)]

theorem runLoopNS_empty (mo : Option String) (mt : Option Nat) (et : Bool) (initLen : Nat)
    (agent : Agent) (history : List Message) (ctx : Ctx)
    (reqs : List CompletionRequest) (inv : List String)
    (hcond : underMax (history.length - initLen) mt = true) :
    runLoopNS mo mt et initLen [] agent history ctx reqs inv =
      ⟨⟨false, none, some apiScriptErr⟩, reqs ++ [mkRequest agent history mo false], inv⟩ := by
  rw [runLoopNS, if_pos hcond]

theorem streamLoop_stop (origName : String) (mo : Option String) (mt : Option Nat) (et : Bool)
    (initLen : Nat) (script : List (Except JsErr (List Value))) (agent : Agent)
    (history : List Message) (ctx : Ctx) (evs : List StreamEvent)
    (reqs : List CompletionRequest) (inv : List String)
    (hcond : underMax (history.length - initLen) mt = false) :
    streamLoop origName mo mt et initLen script agent history ctx evs reqs inv =
      ⟨evs, mkSuccess (List.drop initLen history) agent ctx, reqs, inv⟩ := by
  cases script with
  | nil => rw [streamLoop, if_neg (by rw [hcond]; exact Bool.false_ne_true)]
  | cons c rest => rw [streamLoop, if_neg (by rw [hcond]; exact Bool.false_ne_true)]

theorem streamLoop_empty (origName : String) (mo : Option String) (mt : Option Nat) (et : Bool)
    (initLen : Nat) (agent : Agent) (history : List Message) (ctx : Ctx)
    (evs : List StreamEvent) (reqs : List CompletionRequest) (inv : List String)
    (hcond : underMax (history.length - initLen) mt = true) :
    streamLoop origName mo mt et initLen [] agent history ctx evs reqs inv =
      ⟨evs, ⟨false, none, some apiScriptErr⟩,
       reqs ++ [mkRequest agent history mo true], inv⟩ := by
  rw [streamLoop, if_pos hcond]

theorem streamLoop_step_err (origName : String) (mo : Option String) (mt : Option Nat)
    (et : Bool) (initLen : Nat) (rest : List (Except JsErr (List Value))) (agent : Agent)
    (history : List Message) (ctx : Ctx) (evs : List StreamEvent)
    (reqs : List CompletionRequest) (inv : List String) (e : JsErr)
    (hcond : underMax (history.length - initLen) mt = true) :
    streamLoop origName mo mt et initLen (.error e :: rest) agent history ctx evs reqs inv =
      ⟨evs, ⟨false, none, some e⟩, reqs ++ [mkRequest agent history mo true], inv⟩ := by
  rw [streamLoop, if_pos hcond]

theorem streamLoop_step_merge_err (origName : String) (mo : Option String) (mt : Option Nat)
    (et : Bool) (initLen : Nat) (rest : List (Except JsErr (List Value))) (agent : Agent)
    (history : List Message) (ctx : Ctx) (evs : List StreamEvent)
    (reqs : List CompletionRequest) (inv : List String) (deltas : List Value)
    (tevs : List StreamEvent) (e : JsErr)
    (hcond : underMax (history.length - initLen) mt = true)
    (hasm : assembleTurn origName agent.name deltas = (tevs, .error e)) :
    streamLoop origName mo mt et initLen (.ok deltas :: rest) agent history ctx evs reqs inv =
      ⟨evs ++ [.delimStart] ++ tevs, ⟨false, none, some (catchWrap e)⟩,
       reqs ++ [mkRequest agent history mo true], inv⟩ := by
  rw [streamLoop, if_pos hcond]
  dsimp only
  rw [hasm]

theorem streamLoop_step_break (origName : String) (mo : Option String) (mt : Option Nat)
    (et : Bool) (initLen : Nat) (rest : List (Except JsErr (List Value))) (agent : Agent)
    (history : List Message) (ctx : Ctx) (evs : List StreamEvent)
    (reqs : List CompletionRequest) (inv : List String) (deltas : List Value)
    (tevs : List StreamEvent) (msg : Message)
    (hcond : underMax (history.length - initLen) mt = true)
    (hasm : assembleTurn origName agent.name deltas = (tevs, .ok msg))
    (hm : msg.tool_calls = none) :
    streamLoop origName mo mt et initLen (.ok deltas :: rest) agent history ctx evs reqs inv =
      ⟨evs ++ [.delimStart] ++ tevs ++ [.delimEnd],
       mkSuccess (List.drop initLen (history ++ [msg])) agent ctx,
       reqs ++ [mkRequest agent history mo true], inv⟩ := by
  rw [streamLoop, if_pos hcond]
  dsimp only
  rw [hasm]
  show (match msg.tool_calls, et with
    | some tcs, true => _
    | _, _ => _) = _
  rw [hm]

theorem streamLoop_step_noexec (origName : String) (mo : Option String) (mt : Option Nat)
    (initLen : Nat) (rest : List (Except JsErr (List Value))) (agent : Agent)
    (history : List Message) (ctx : Ctx) (evs : List StreamEvent)
    (reqs : List CompletionRequest) (inv : List String) (deltas : List Value)
    (tevs : List StreamEvent) (msg : Message)
    (hcond : underMax (history.length - initLen) mt = true)
    (hasm : assembleTurn origName agent.name deltas = (tevs, .ok msg)) :
    streamLoop origName mo mt false initLen (.ok deltas :: rest) agent history ctx evs reqs inv =
      ⟨evs ++ [.delimStart] ++ tevs ++ [.delimEnd],
       mkSuccess (List.drop initLen (history ++ [msg])) agent ctx,
       reqs ++ [mkRequest agent history mo true], inv⟩ := by
  rw [streamLoop, if_pos hcond]
  dsimp only
  rw [hasm]
  show (match msg.tool_calls, false with
    | some tcs, true => _
    | _, _ => _) = _
  cases msg.tool_calls <;> rfl

theorem streamLoop_step_dispatch (origName : String) (mo : Option String) (mt : Option Nat)
    (initLen : Nat) (rest : List (Except JsErr (List Value))) (agent : Agent)
    (history : List Message) (ctx : Ctx) (evs : List StreamEvent)
    (reqs : List CompletionRequest) (inv : List String) (deltas : List Value)
    (tevs : List StreamEvent) (msg : Message) (calls : List ToolCall)
    (rd : ResponseData) (invd : List String)
    (hcond : underMax (history.length - initLen) mt = true)
    (hasm : assembleTurn origName agent.name deltas = (tevs, .ok msg))
    (hm : msg.tool_calls = some calls)
    (hd : handleToolCalls calls agent ctx = ⟨.ok ⟨true, some rd, none⟩, invd⟩)
    (hagent : rd.agent = none) :
    streamLoop origName mo mt true initLen (.ok deltas :: rest) agent history ctx evs reqs inv =
      streamLoop origName mo mt true initLen rest agent
        (history ++ [msg] ++ rd.messages) (objectAssign ctx rd.contextVariables)
        (evs ++ [.delimStart] ++ tevs ++ [.delimEnd])
        (reqs ++ [mkRequest agent history mo true]) (inv ++ invd) := by
  rw [streamLoop, if_pos hcond]
  dsimp only
  rw [hasm]
  show (match msg.tool_calls, true with
    | some tcs, true => _
    | _, _ => _) = _
  rw [hm]
  show (match (handleToolCalls calls agent ctx).out with
    | .error e => _
    | .ok tr => _) = _
  rw [hd]
  show (if (true : Bool) = false ∨ (some rd : Option ResponseData).isNone then _ else _) = _
  rw [if_neg (by simp)]
  show streamLoop origName mo mt true initLen rest
    (match rd.agent with
     | some a => a
     | none => agent) _ _ _ _ _ = _
  rw [hagent]

theorem streamLoop_step_throw (origName : String) (mo : Option String) (mt : Option Nat)
    (initLen : Nat) (rest : List (Except JsErr (List Value))) (agent : Agent)
    (history : List Message) (ctx : Ctx) (evs : List StreamEvent)
    (reqs : List CompletionRequest) (inv : List String) (deltas : List Value)
    (tevs : List StreamEvent) (msg : Message) (calls : List ToolCall)
    (e : JsErr) (invd : List String)
    (hcond : underMax (history.length - initLen) mt = true)
    (hasm : assembleTurn origName agent.name deltas = (tevs, .ok msg))
    (hm : msg.tool_calls = some calls)
    (hd : handleToolCalls calls agent ctx = ⟨.error e, invd⟩) :
    streamLoop origName mo mt true initLen (.ok deltas :: rest) agent history ctx evs reqs inv =
      ⟨evs ++ [.delimStart] ++ tevs ++ [.delimEnd], ⟨false, none, some (catchWrap e)⟩,
       reqs ++ [mkRequest agent history mo true], inv ++ invd⟩ := by
  rw [streamLoop, if_pos hcond]
  dsimp only
  rw [hasm]
  show (match msg.tool_calls, true with
    | some tcs, true => _
    | _, _ => _) = _
  rw [hm]
  show (match (handleToolCalls calls agent ctx).out with
    | .error e => _
    | .ok tr => _) = _
  rw [hd]

/-- Every dispatch either throws or returns a success-flagged result with
data present and no handoff. -/
theorem handleToolCalls_shape (calls : List ToolCall) (agent : Agent) (ctx : Ctx) :
    (∃ e invd, handleToolCalls calls agent ctx = ⟨.error e, invd⟩) ∨
    (∃ rd invd, handleToolCalls calls agent ctx = ⟨.ok ⟨true, some rd, none⟩, invd⟩ ∧
      rd.agent = none) := by
  suffices h : ∀ (cs : List ToolCall) (resp : ResponseData) (inv : List String),
      (∃ e invd, handleToolCallsGo agent ctx cs resp inv = ⟨.error e, invd⟩) ∨
      (∃ rd invd, handleToolCallsGo agent ctx cs resp inv = ⟨.ok ⟨true, some rd, none⟩, invd⟩ ∧
        rd.agent = resp.agent) by
    rcases h calls ⟨[], none, ctx⟩ [] with h1 | h2
    · exact Or.inl h1
    · exact Or.inr h2
  intro cs
  induction cs with
  | nil =>
    intro resp inv
    exact Or.inr ⟨resp, inv.reverse, by rw [handleToolCallsGo], rfl⟩
  | cons c rest ih =>
    intro resp inv
    obtain ⟨nm, r⟩ : ∃ nm r, callResult agent ctx c = (nm, r) :=
      ⟨(callResult agent ctx c).1, (callResult agent ctx c).2, rfl⟩
    obtain ⟨r, hcr⟩ := r
    cases r with
    | error e =>
      exact Or.inl ⟨e, (pushInv nm inv).reverse,
        handleToolCallsGo_cons_err agent ctx c rest resp inv nm e hcr⟩
    | ok msg =>
      rw [handleToolCallsGo_cons_ok agent ctx c rest resp inv nm msg hcr]
      rcases ih { resp with messages := resp.messages ++ [msg] } (pushInv nm inv) with
        ⟨e, invd, h1⟩ | ⟨rd, invd, h2, h3⟩
      · exact Or.inl ⟨e, invd, h1⟩
      · exact Or.inr ⟨rd, invd, h2, h3⟩

/-- The streaming turn loop and the non-streaming turn loop compute the
same terminal result whenever each streamed turn's deltas reassemble to
the non-streaming provider's message (sender-stamped). -/
theorem streamLoop_agrees (mo : Option String) (mt : Option Nat) (et : Bool) (initLen : Nat)
    (name : String) :
    ∀ (ns : List (Except JsErr Message)) (ss : List (Except JsErr (List Value))),
      scriptsMatch name ns ss = true →
      ∀ (agent : Agent), agent.name = name →
      ∀ (history : List Message) (ctx : Ctx) (evs : List StreamEvent)
        (reqs reqs2 : List CompletionRequest) (inv inv2 : List String),
        (streamLoop name mo mt et initLen ss agent history ctx evs reqs2 inv2).result =
          (runLoopNS mo mt et initLen ns agent history ctx reqs inv).result := by
  intro ns
  induction ns with
  | nil =>
    intro ss hmatch agent hname history ctx evs reqs reqs2 inv inv2
    subst hname
    cases ss with
    | nil =>
      cases hu : underMax (history.length - initLen) mt with
      | true =>
        rw [streamLoop_empty _ mo mt et initLen agent history ctx evs reqs2 inv2 hu,
          runLoopNS_empty mo mt et initLen agent history ctx reqs inv hu]
      | false =>
        rw [streamLoop_stop _ mo mt et initLen [] agent history ctx evs reqs2 inv2 hu,
          runLoopNS_stop mo mt et initLen [] agent history ctx reqs inv hu]
    | cons s ss2 => simp [scriptsMatch] at hmatch
  | cons nhead ns2 ih =>
    intro ss hmatch agent hname history ctx evs reqs reqs2 inv inv2
    subst hname
    cases ss with
    | nil => cases nhead <;> simp [scriptsMatch] at hmatch
    | cons shead ss2 =>
      cases nhead with
      | error e =>
        cases shead with
        | ok ds => simp [scriptsMatch] at hmatch
        | error e2 =>
          have h1 : e = e2 ∧ scriptsMatch agent.name ns2 ss2 = true := by
            simpa [scriptsMatch] using hmatch
          obtain ⟨rfl, hrest⟩ := h1
          cases hu : underMax (history.length - initLen) mt with
          | true =>
            rw [streamLoop_step_err _ mo mt et initLen ss2 agent history ctx evs reqs2 inv2 e hu,
              runLoopNS_step_err mo mt et initLen ns2 agent history ctx reqs inv e hu]
          | false =>
            rw [streamLoop_stop _ mo mt et initLen _ agent history ctx evs reqs2 inv2 hu,
              runLoopNS_stop mo mt et initLen _ agent history ctx reqs inv hu]
      | ok m =>
        cases shead with
        | error e2 => simp [scriptsMatch] at hmatch
        | ok ds =>
          have h1 : (assembleTurn agent.name agent.name ds).2 =
              .ok { m with sender := some agent.name } ∧
              scriptsMatch agent.name ns2 ss2 = true := by
            simpa [scriptsMatch] using hmatch
          obtain ⟨hasm0, hrest⟩ := h1
          cases hu : underMax (history.length - initLen) mt with
          | false =>
            rw [streamLoop_stop _ mo mt et initLen _ agent history ctx evs reqs2 inv2 hu,
              runLoopNS_stop mo mt et initLen _ agent history ctx reqs inv hu]
          | true =>
            have hpair : assembleTurn agent.name agent.name ds =
                ((assembleTurn agent.name agent.name ds).1,
                 .ok ({ m with sender := some agent.name })) := by
              rw [← hasm0]
            cases hmtc : m.tool_calls with
            | none =>
              rw [streamLoop_step_break agent.name mo mt et initLen ss2 agent history ctx evs
                  reqs2 inv2 ds _ _ hu hpair hmtc,
                runLoopNS_step_break mo mt et initLen ns2 agent history ctx reqs inv m hu hmtc]
            | some tcs =>
              cases et with
              | false =>
                rw [streamLoop_step_noexec agent.name mo mt initLen ss2 agent history ctx evs
                    reqs2 inv2 ds _ _ hu hpair,
                  runLoopNS_step_noexec mo mt initLen ns2 agent history ctx reqs inv m hu]
              | true =>
                rcases handleToolCalls_shape tcs agent ctx with
                  ⟨e, invd, hd⟩ | ⟨rd, invd, hd, hrd⟩
                · rw [streamLoop_step_throw agent.name mo mt initLen ss2 agent history ctx evs
                      reqs2 inv2 ds _ _ tcs e invd hu hpair hmtc hd,
                    runLoopNS_step_throw mo mt initLen ns2 agent history ctx reqs inv m tcs
                      e invd hu hmtc hd]
                · rw [streamLoop_step_dispatch agent.name mo mt initLen ss2 agent history ctx evs
                      reqs2 inv2 ds _ _ tcs rd invd hu hpair hmtc hd hrd,
                    runLoopNS_step_dispatch mo mt initLen ns2 agent history ctx reqs inv m tcs
                      rd invd hu hmtc hd hrd]
                  exact ih ss2 hrest agent rfl _ _ _ _ _ _ _

/-- C4 (amended): whenever the streamed deltas reassemble, turn by turn,
to the messages the non-streaming provider returns, the streaming
generator's terminal result — obtained by draining the whole event
sequence — equals the non-streaming `run` result; `runStream`, however,
pulls only the FIRST event of the sequence: it returns the generator's
terminal result only when the generator finishes before yielding (so in
particular when the first completion request fails), and otherwise
resolves immediately to the placeholder empty success
{messages: [], agent: null, contextVariables: {}} without draining the
sequence. -/
theorem streaming_refines_run_but_runStream_abandons
    (agent : Agent) (messages : List Message) (ctx : Ctx) (mo : Option String)
    (mt : Option Nat) (et : Bool) (ns : List (Except JsErr Message))
    (ss : List (Except JsErr (List Value)))
    (hmatch : scriptsMatch agent.name ns ss = true) :
    (streamGenerator agent messages ctx ⟨mo, false, mt, et⟩ ss).result =
      (runNS agent messages ctx ⟨mo, false, mt, et⟩ ns).result ∧
    ((streamGenerator agent messages ctx ⟨mo, false, mt, et⟩ ss).events = [] →
      runStream agent messages ctx ⟨mo, false, mt, et⟩ ss =
        (runNS agent messages ctx ⟨mo, false, mt, et⟩ ns).result) ∧
    (∀ ev evrest,
      (streamGenerator agent messages ctx ⟨mo, false, mt, et⟩ ss).events = ev :: evrest →
      runStream agent messages ctx ⟨mo, false, mt, et⟩ ss = ⟨true, some ⟨[], none, []⟩, none⟩) := by
  have hmain : (streamGenerator agent messages ctx ⟨mo, false, mt, et⟩ ss).result =
      (runNS agent messages ctx ⟨mo, false, mt, et⟩ ns).result := by
    rw [streamGenerator, runNS]
    exact streamLoop_agrees mo mt et messages.length agent.name ns ss hmatch agent rfl
      messages ctx [] [] [] [] []
  refine ⟨hmain, ?_, ?_⟩
  · intro hev
    rw [runStream, hev]
    exact hmain
  · intro ev evrest hev
    rw [runStream, hev]

/-- Concrete instance of C4 (amended): a single content-only streamed turn
reassembles to the assistant message "hello", and the generator's terminal
result coincides with the non-streaming one. -/
theorem streaming_refines_run_witness :
    scriptsMatch agentA.name [.ok helloMsg] [.ok [deltaHello]] = true ∧
    (streamGenerator agentA [] [] ⟨none, false, none, true⟩ [.ok [deltaHello]]).result =
      (runNS agentA [] [] ⟨none, false, none, true⟩ [.ok helloMsg]).result :=
  ⟨rfl, (streaming_refines_run_but_runStream_abandons agentA [] [] none none true
    [.ok helloMsg] [.ok [deltaHello]] rfl).1⟩

/-- Counterexample to C4 as stated: with matching scripts (one streamed
turn reassembling to "hello"), `run` returns that single assistant
message, while `runStream` — having pulled only the first event — returns
the empty placeholder: the two terminal results differ. -/
theorem runStream_abandons_counterexample :
    scriptsMatch agentA.name [.ok helloMsg] [.ok [deltaHello]] = true ∧
    runStream agentA [] [] {} [.ok [deltaHello]] = ⟨true, some ⟨[], none, []⟩, none⟩ ∧
    (runNS agentA [] [] {} [.ok helloMsg]).result.data.map (fun d => d.messages) =
      some [{ helloMsg with sender := some "A" }] ∧
    (runStream agentA [] [] {} [.ok [deltaHello]]).data.map (fun d => d.messages) ≠
      (runNS agentA [] [] {} [.ok helloMsg]).result.data.map (fun d => d.messages) :=
  ⟨rfl, rfl, rfl, by decide⟩

/-! ### Frame property of the heap view (claim C9) -/

theorem readMsgs_ww (s : Store) (rh rc : Nat) (l : List Message) (c : Ctx)
    (hne : rh ≠ rc) (hrh : rh < s.length) :
    readMsgs (writeObj (writeObj s rh (.msgs l)) rc (.vars c)) rh = l := by
  rw [readMsgs, writeObj, writeObj, List.get?_set_ne (HObj.vars c) _ (Ne.symm hne),
    List.get?_set_eq_of_lt _ hrh]

theorem readVars_ww (s : Store) (rh rc : Nat) (l : List Message) (c : Ctx)
    (hrc : rc < s.length) :
    readVars (writeObj (writeObj s rh (.msgs l)) rc (.vars c)) rc = c := by
  rw [readVars, writeObj, writeObj, List.get?_set_eq_of_lt _ (by simpa using hrc)]

theorem runHeapLoop_stop (mo : Option String) (mt : Option Nat) (et : Bool) (initLen : Nat)
    (script : List (Except JsErr Message)) (agent : Agent) (st : Store) (rh rc : Nat)
    (reqs : List CompletionRequest) (inv : List String)
    (hcond : underMax ((readMsgs st rh).length - initLen) mt = false) :
    runHeapLoop mo mt et initLen script agent st rh rc reqs inv =
      (⟨mkSuccess (List.drop initLen (readMsgs st rh)) agent (readVars st rc), reqs, inv⟩,
       st) := by
  cases script with
  | nil => rw [runHeapLoop, if_neg (by rw [hcond]; exact Bool.false_ne_true)]
  | cons c rest => rw [runHeapLoop, if_neg (by rw [hcond]; exact Bool.false_ne_true)]

theorem runHeapLoop_empty (mo : Option String) (mt : Option Nat) (et : Bool) (initLen : Nat)
    (agent : Agent) (st : Store) (rh rc : Nat)
    (reqs : List CompletionRequest) (inv : List String)
    (hcond : underMax ((readMsgs st rh).length - initLen) mt = true) :
    runHeapLoop mo mt et initLen [] agent st rh rc reqs inv =
      (⟨⟨false, none, some apiScriptErr⟩,
        reqs ++ [mkRequest agent (readMsgs st rh) mo false], inv⟩, st) := by
  rw [runHeapLoop, if_pos hcond]

theorem runHeapLoop_step_err (mo : Option String) (mt : Option Nat) (et : Bool) (initLen : Nat)
    (rest : List (Except JsErr Message)) (agent : Agent) (st : Store) (rh rc : Nat)
    (reqs : List CompletionRequest) (inv : List String) (e : JsErr)
    (hcond : underMax ((readMsgs st rh).length - initLen) mt = true) :
    runHeapLoop mo mt et initLen (.error e :: rest) agent st rh rc reqs inv =
      (⟨⟨false, none, some e⟩, reqs ++ [mkRequest agent (readMsgs st rh) mo false], inv⟩,
       st) := by
  rw [runHeapLoop, if_pos hcond]

theorem runHeapLoop_step_break (mo : Option String) (mt : Option Nat) (et : Bool)
    (initLen : Nat) (rest : List (Except JsErr Message)) (agent : Agent) (st : Store)
    (rh rc : Nat) (reqs : List CompletionRequest) (inv : List String) (m : Message)
    (hcond : underMax ((readMsgs st rh).length - initLen) mt = true)
    (hm : m.tool_calls = none) :
    runHeapLoop mo mt et initLen (.ok m :: rest) agent st rh rc reqs inv =
      (⟨mkSuccess (List.drop initLen (readMsgs st rh ++ [{ m with sender := some agent.name }]))
          agent (readVars st rc),
        reqs ++ [mkRequest agent (readMsgs st rh) mo false], inv⟩,
       writeObj st rh (.msgs (readMsgs st rh ++ [{ m with sender := some agent.name }]))) := by
  rw [runHeapLoop, if_pos hcond]
  show (match ({ m with sender := some agent.name } : Message).tool_calls, et with
    | some tcs, true => _
    | _, _ => _) = _
  rw [show ({ m with sender := some agent.name } : Message).tool_calls = m.tool_calls from rfl,
    hm]

theorem runHeapLoop_step_noexec (mo : Option String) (mt : Option Nat) (initLen : Nat)
    (rest : List (Except JsErr Message)) (agent : Agent) (st : Store) (rh rc : Nat)
    (reqs : List CompletionRequest) (inv : List String) (m : Message)
    (hcond : underMax ((readMsgs st rh).length - initLen) mt = true) :
    runHeapLoop mo mt false initLen (.ok m :: rest) agent st rh rc reqs inv =
      (⟨mkSuccess (List.drop initLen (readMsgs st rh ++ [{ m with sender := some agent.name }]))
          agent (readVars st rc),
        reqs ++ [mkRequest agent (readMsgs st rh) mo false], inv⟩,
       writeObj st rh (.msgs (readMsgs st rh ++ [{ m with sender := some agent.name }]))) := by
  rw [runHeapLoop, if_pos hcond]
  show (match ({ m with sender := some agent.name } : Message).tool_calls, false with
    | some tcs, true => _
    | _, _ => _) = _
  cases ({ m with sender := some agent.name } : Message).tool_calls <;> rfl

theorem runHeapLoop_step_throw (mo : Option String) (mt : Option Nat) (initLen : Nat)
    (rest : List (Except JsErr Message)) (agent : Agent) (st : Store) (rh rc : Nat)
    (reqs : List CompletionRequest) (inv : List String) (m : Message) (calls : List ToolCall)
    (e : JsErr) (invd : List String)
    (hcond : underMax ((readMsgs st rh).length - initLen) mt = true)
    (hm : m.tool_calls = some calls)
    (hd : handleToolCalls calls agent (readVars st rc) = ⟨.error e, invd⟩) :
    runHeapLoop mo mt true initLen (.ok m :: rest) agent st rh rc reqs inv =
      (⟨⟨false, none, some (catchWrap e)⟩,
        reqs ++ [mkRequest agent (readMsgs st rh) mo false], inv ++ invd⟩,
       writeObj st rh (.msgs (readMsgs st rh ++ [{ m with sender := some agent.name }]))) := by
  rw [runHeapLoop, if_pos hcond]
  show (match ({ m with sender := some agent.name } : Message).tool_calls, true with
    | some tcs, true => _
    | _, _ => _) = _
  rw [show ({ m with sender := some agent.name } : Message).tool_calls = m.tool_calls from rfl,
    hm]
  show (match (handleToolCalls calls agent (readVars st rc)).out with
    | .error e => _
    | .ok tr => _) = _
  rw [hd]

theorem runHeapLoop_step_dispatch (mo : Option String) (mt : Option Nat) (initLen : Nat)
    (rest : List (Except JsErr Message)) (agent : Agent) (st : Store) (rh rc : Nat)
    (reqs : List CompletionRequest) (inv : List String) (m : Message) (calls : List ToolCall)
    (rd : ResponseData) (invd : List String)
    (hcond : underMax ((readMsgs st rh).length - initLen) mt = true)
    (hm : m.tool_calls = some calls)
    (hd : handleToolCalls calls agent (readVars st rc) = ⟨.ok ⟨true, some rd, none⟩, invd⟩)
    (hagent : rd.agent = none) :
    runHeapLoop mo mt true initLen (.ok m :: rest) agent st rh rc reqs inv =
      runHeapLoop mo mt true initLen rest agent
        (writeObj (writeObj (writeObj st rh
            (.msgs (readMsgs st rh ++ [{ m with sender := some agent.name }]))) rh
            (.msgs (readMsgs st rh ++ [{ m with sender := some agent.name }] ++ rd.messages))) rc
            (.vars (objectAssign (readVars st rc) rd.contextVariables)))
        rh rc (reqs ++ [mkRequest agent (readMsgs st rh) mo false]) (inv ++ invd) := by
  rw [runHeapLoop, if_pos hcond]
  show (match ({ m with sender := some agent.name } : Message).tool_calls, true with
    | some tcs, true => _
    | _, _ => _) = _
  rw [show ({ m with sender := some agent.name } : Message).tool_calls = m.tool_calls from rfl,
    hm]
  show (match (handleToolCalls calls agent (readVars st rc)).out with
    | .error e => _
    | .ok tr => _) = _
  rw [hd]
  show (if (true : Bool) = false ∨ (some rd : Option ResponseData).isNone then _ else _) = _
  rw [if_neg (by simp)]
  show runHeapLoop mo mt true initLen rest
    (match rd.agent with
     | some a => a
     | none => agent) _ _ _ _ _ = _
  rw [hagent]

theorem runHeapLoop_frame (mo : Option String) (mt : Option Nat) (et : Bool) (initLen : Nat) :
    ∀ (script : List (Except JsErr Message)) (agent : Agent) (st : Store) (rh rc : Nat)
      (reqs : List CompletionRequest) (inv : List String) (n : Nat),
      n ≤ rh → n ≤ rc → ∀ i, i < n →
      ((runHeapLoop mo mt et initLen script agent st rh rc reqs inv).2).get? i = st.get? i := by
  intro script
  induction script with
  | nil =>
    intro agent st rh rc reqs inv n hrh hrc i hi
    cases hu : underMax ((readMsgs st rh).length - initLen) mt with
    | true => rw [runHeapLoop_empty mo mt et initLen agent st rh rc reqs inv hu]
    | false => rw [runHeapLoop_stop mo mt et initLen [] agent st rh rc reqs inv hu]
  | cons c rest ih =>
    intro agent st rh rc reqs inv n hrh hrc i hi
    have hw : ∀ (s : Store) (r : Nat) (o : HObj), n ≤ r → (writeObj s r o).get? i = s.get? i := by
      intro s r o hr
      exact List.get?_set_ne o s (by omega)
    cases hu : underMax ((readMsgs st rh).length - initLen) mt with
    | false => rw [runHeapLoop_stop mo mt et initLen _ agent st rh rc reqs inv hu]
    | true =>
      cases c with
      | error e => rw [runHeapLoop_step_err mo mt et initLen rest agent st rh rc reqs inv e hu]
      | ok m0 =>
        cases hmtc : m0.tool_calls with
        | none =>
          rw [runHeapLoop_step_break mo mt et initLen rest agent st rh rc reqs inv m0 hu hmtc]
          exact hw _ _ _ hrh
        | some tcs =>
          cases et with
          | false =>
            rw [runHeapLoop_step_noexec mo mt initLen rest agent st rh rc reqs inv m0 hu]
            exact hw _ _ _ hrh
          | true =>
            rcases handleToolCalls_shape tcs agent (readVars st rc) with
              ⟨e, invd, hd⟩ | ⟨rd, invd, hd, hrd⟩
            · rw [runHeapLoop_step_throw mo mt initLen rest agent st rh rc reqs inv m0 tcs
                  e invd hu hmtc hd]
              exact hw _ _ _ hrh
            · rw [runHeapLoop_step_dispatch mo mt initLen rest agent st rh rc reqs inv m0 tcs
                  rd invd hu hmtc hd hrd,
                ih _ _ rh rc _ _ n hrh hrc i hi, hw _ _ _ hrc, hw _ _ _ hrh, hw _ _ _ hrh]

theorem runHeapLoop_refines (mo : Option String) (mt : Option Nat) (et : Bool) (initLen : Nat) :
    ∀ (script : List (Except JsErr Message)) (agent : Agent) (st : Store) (rh rc : Nat)
      (reqs : List CompletionRequest) (inv : List String),
      rh ≠ rc → rh < st.length → rc < st.length →
      (runHeapLoop mo mt et initLen script agent st rh rc reqs inv).1 =
        runLoopNS mo mt et initLen script agent (readMsgs st rh) (readVars st rc) reqs inv := by
  intro script
  induction script with
  | nil =>
    intro agent st rh rc reqs inv hne hrh hrc
    cases hu : underMax ((readMsgs st rh).length - initLen) mt with
    | true =>
      rw [runHeapLoop_empty mo mt et initLen agent st rh rc reqs inv hu,
        runLoopNS_empty mo mt et initLen agent (readMsgs st rh) (readVars st rc) reqs inv hu]
    | false =>
      rw [runHeapLoop_stop mo mt et initLen [] agent st rh rc reqs inv hu,
        runLoopNS_stop mo mt et initLen [] agent (readMsgs st rh) (readVars st rc) reqs inv hu]
  | cons c rest ih =>
    intro agent st rh rc reqs inv hne hrh hrc
    cases hu : underMax ((readMsgs st rh).length - initLen) mt with
    | false =>
      rw [runHeapLoop_stop mo mt et initLen _ agent st rh rc reqs inv hu,
        runLoopNS_stop mo mt et initLen _ agent (readMsgs st rh) (readVars st rc) reqs inv hu]
    | true =>
      cases c with
      | error e =>
        rw [runHeapLoop_step_err mo mt et initLen rest agent st rh rc reqs inv e hu,
          runLoopNS_step_err mo mt et initLen rest agent (readMsgs st rh) (readVars st rc)
            reqs inv e hu]
      | ok m0 =>
        cases hmtc : m0.tool_calls with
        | none =>
          rw [runHeapLoop_step_break mo mt et initLen rest agent st rh rc reqs inv m0 hu hmtc,
            runLoopNS_step_break mo mt et initLen rest agent (readMsgs st rh) (readVars st rc)
              reqs inv m0 hu hmtc]
        | some tcs =>
          cases et with
          | false =>
            rw [runHeapLoop_step_noexec mo mt initLen rest agent st rh rc reqs inv m0 hu,
              runLoopNS_step_noexec mo mt initLen rest agent (readMsgs st rh) (readVars st rc)
                reqs inv m0 hu]
          | true =>
            rcases handleToolCalls_shape tcs agent (readVars st rc) with
              ⟨e, invd, hd⟩ | ⟨rd, invd, hd, hrd⟩
            · rw [runHeapLoop_step_throw mo mt initLen rest agent st rh rc reqs inv m0 tcs
                  e invd hu hmtc hd,
                runLoopNS_step_throw mo mt initLen rest agent (readMsgs st rh) (readVars st rc)
                  reqs inv m0 tcs e invd hu hmtc hd]
            · rw [runHeapLoop_step_dispatch mo mt initLen rest agent st rh rc reqs inv m0 tcs
                  rd invd hu hmtc hd hrd,
                runLoopNS_step_dispatch mo mt initLen rest agent (readMsgs st rh)
                  (readVars st rc) reqs inv m0 tcs rd invd hu hmtc hd hrd,
                ih agent _ rh rc _ _ hne (by simp [writeObj, hrh]) (by simp [writeObj, hrc]),
                readMsgs_ww _ rh rc _ _ hne (by simp [writeObj, hrh]),
                readVars_ww _ rh rc _ _ (by simp [writeObj, hrc])]

/-- C9: a run never mutates the caller's inputs.  In the heap view the
caller's message array (at `rm`) and context object (at `rc`) are read
once at entry into fresh shallow copies, and every write of the turn loop
targets the two fresh references: every pre-existing store object — in
particular the caller's array and object — is unchanged when `run`
returns, and the run's outcome is exactly the value-level `run` on the
entry snapshots. -/
theorem run_preserves_caller_inputs (agent : Agent) (rm rc : Nat) (opts : RunOptions)
    (script : List (Except JsErr Message)) (st : Store) :
    (∀ i, i < st.length → ((runHeap agent rm rc opts script st).2).get? i = st.get? i) ∧
    (rm < st.length → readMsgs (runHeap agent rm rc opts script st).2 rm = readMsgs st rm) ∧
    (rc < st.length → readVars (runHeap agent rm rc opts script st).2 rc = readVars st rc) ∧
    (runHeap agent rm rc opts script st).1 =
      runNS agent (readMsgs st rm) (readVars st rc) opts script := by
  have h0 : runHeap agent rm rc opts script st =
      runHeapLoop opts.modelOverride opts.maxTurns opts.executeTools (readMsgs st rm).length
        script agent
        ((st ++ [HObj.vars (readVars st rc)]) ++ [HObj.msgs (readMsgs st rm)])
        (st ++ [HObj.vars (readVars st rc)]).length st.length [] [] := rfl
  have hframe : ∀ i, i < st.length →
      ((runHeap agent rm rc opts script st).2).get? i = st.get? i := by
    intro i hi
    rw [h0, runHeapLoop_frame opts.modelOverride opts.maxTurns opts.executeTools
      (readMsgs st rm).length script agent _ _ _ [] [] st.length (by simp) (le_refl _) i hi,
      List.get?_append (by simp only [List.length_append, List.length_cons, List.length_nil]; omega),
      List.get?_append hi]
  refine ⟨hframe, ?_, ?_, ?_⟩
  · intro hrm
    simp only [readMsgs]
    rw [hframe rm hrm]
  · intro hrc
    simp only [readVars]
    rw [hframe rc hrc]
  · rw [h0, runHeapLoop_refines opts.modelOverride opts.maxTurns opts.executeTools
      (readMsgs st rm).length script agent _ _ _ [] [] (by simp) (by simp) (by simp)]
    rw [show readMsgs ((st ++ [HObj.vars (readVars st rc)]) ++ [HObj.msgs (readMsgs st rm)])
        (st ++ [HObj.vars (readVars st rc)]).length = readMsgs st rm from by
      rw [readMsgs, List.get?_concat_length],
      show readVars ((st ++ [HObj.vars (readVars st rc)]) ++ [HObj.msgs (readMsgs st rm)])
        st.length = readVars st rc from by
      rw [readVars, List.get?_append (by simp), List.get?_concat_length]]
    rfl

/-- Concrete instance of C9: with the caller's array and object stored at
references 0 and 1, both are untouched by a one-turn run, and the heap run
agrees with the value-level run. -/
theorem run_preserves_caller_inputs_witness :
    ((runHeap agentA 0 1 {} [.ok helloMsg] [.msgs [userHi], .vars ctx0]).2).get? 0 =
      some (.msgs [userHi]) ∧
    ((runHeap agentA 0 1 {} [.ok helloMsg] [.msgs [userHi], .vars ctx0]).2).get? 1 =
      some (.vars ctx0) ∧
    (runHeap agentA 0 1 {} [.ok helloMsg] [.msgs [userHi], .vars ctx0]).1 =
      runNS agentA [userHi] ctx0 {} [.ok helloMsg] := by
  have h := run_preserves_caller_inputs agentA 0 1 {} [.ok helloMsg]
    [.msgs [userHi], .vars ctx0]
  refine ⟨?_, ?_, ?_⟩
  · rw [h.1 0 (by decide)]
    rfl
  · rw [h.1 1 (by decide)]
    rfl
  · rw [h.2.2.2]
    rfl

end Sw4rm
